import Mathlib

/-
Verification development for the Rustic chess engine.

This file gives a shallow embedding, in Lean 4, of the parts of the engine
that the verified properties talk about:

* the board representation with its incrementally updated piece bitboards,
  side-occupancy bitboards, piece list, material counts and Zobrist key
  (src/src/board.rs);
* the make / unmake machinery (src/src/board/make_move.rs);
* the draw-detection helpers of the search (src/src/search/utils.rs);
* the negamax alpha-beta search (src/src/search/alpha_beta.rs);
* the early non-slider move generator (src/src/movegen.rs);
* the UCI movetime handler arithmetic (src/src/engine/comm_reports.rs).

Machine integers are modelled as Nat.  Bitboards are u64 values; the
bitwise operations used on them (OR, XOR, AND) never produce bits above
those of their operands, so no masking is required except where a
complement is taken (bnot64 below).  u16 counters (material) wrap modulo
2^16, u8 counters (halfmove clock) modulo 2^8, and the u128 movetime
arithmetic wraps modulo 2^128; this release-mode wrapping is written out
explicitly.

The process-wide read-only tables (Zobrist randoms, piece values, the
attack tables behind square_attacked) are held behind an Arc by the Rust
board; here they are passed as an explicit read-only context argument.
-/

namespace Rustic

/-- Piece-type encoding, spec section 3 and src/src/board/defs.rs (absent
from src; the encoding King..Pawn = 0..5 with a None sentinel is fixed by
the spec): King. -/
def KING : Nat := 0

/-- Piece type: Queen. -/
def QUEEN : Nat := 1

/-- Piece type: Rook. -/
def ROOK : Nat := 2

/-- Piece type: Bishop. -/
def BISHOP : Nat := 3

/-- Piece type: Knight. -/
def KNIGHT : Nat := 4

/-- Piece type: Pawn. -/
def PAWN : Nat := 5

/-- Sentinel piece type used for empty squares in the piece list. -/
def PNONE : Nat := 6

/-- Side encoding (src/src/defs.rs): White = 0. -/
def WHITE : Nat := 0

/-- Side encoding (src/src/defs.rs): Black = 1. -/
def BLACK : Nat := 1

/-- Square A1 (square numbering 0..63, A1 = 0, spec section 3). -/
def A1 : Nat := 0
/-- Square C1. -/
def C1 : Nat := 2
/-- Square D1. -/
def D1 : Nat := 3
/-- Square E1. -/
def E1 : Nat := 4
/-- Square F1. -/
def F1 : Nat := 5
/-- Square G1. -/
def G1 : Nat := 6
/-- Square H1. -/
def H1 : Nat := 7
/-- Square A8. -/
def A8 : Nat := 56
/-- Square C8. -/
def C8 : Nat := 58
/-- Square D8. -/
def D8 : Nat := 59
/-- Square E8. -/
def E8 : Nat := 60
/-- Square F8. -/
def F8 : Nat := 61
/-- Square G8. -/
def G8 : Nat := 62
/-- Square H8. -/
def H8 : Nat := 63

/-- Castling permission bit (src/src/defs.rs, struct Castling): white kingside. -/
def CASTLE_WK : Nat := 1
/-- Castling permission bit: white queenside. -/
def CASTLE_WQ : Nat := 2
/-- Castling permission bit: black kingside. -/
def CASTLE_BK : Nat := 4
/-- Castling permission bit: black queenside. -/
def CASTLE_BQ : Nat := 8

/-- Wrapping u16 addition, as performed on the material counters. -/
def addU16 (a b : Nat) : Nat := (a + b) % 65536

/-- Wrapping u16 subtraction, as performed on the material counters. -/
def subU16 (a b : Nat) : Nat := (a + 65536 - b % 65536) % 65536

/-- BB_SQUARES[square]: the bitboard with only bit `square` set
(src/src/board/defs.rs; the table entry is 1 shifted left by the square
number). -/
def bbSquare (square : Nat) : Nat := 1 <<< square

/-- A Move, as dissected by make_move (src/src/board/make_move.rs lines
29-37).  Modelled from the spec: the packed 64-bit move word of
src/src/movegen/movedefs.rs is absent from src; spec section 3 lists the
packed fields (from, to, piece, captured, promoted, en-passant flag,
double-step flag, castling flag), which are represented here directly as
the values the bit-field accessors return. -/
structure Move where
  piece : Nat
  fromSq : Nat
  toSq : Nat
  captured : Nat
  promoted : Nat
  en_passant : Bool
  double_step : Bool
  castling : Bool
deriving DecidableEq, Repr, Inhabited

/-- The irreversible part of the board state (spec section 3; the
game_state field of src/src/board.rs, stored inline on the Board in the
older layout used by src/src/board/make_move.rs). -/
@[ext]
structure GameState where
  active_color : Nat
  castling : Nat
  en_passant : Option Nat
  halfmove_clock : Nat
  fullmove_number : Nat
  zobrist_key : Nat
deriving DecidableEq, Repr

/-- An entry of the unmake history stack: the irreversible state saved by
make_move together with the move that was made
(src/src/board/make_move.rs lines 13-21, UnMakeInfo::new). -/
structure UnMakeInfo where
  active_color : Nat
  castling : Nat
  en_passant : Option Nat
  halfmove_clock : Nat
  fullmove_number : Nat
  zobrist_key : Nat
  this_move : Move
deriving DecidableEq, Repr, Inhabited

/-- The board (src/src/board.rs, struct Board).  bb_side is indexed by
side then piece type, bb_pieces / material_count by side, piece_list by
square.  The history stack is a list with the oldest entry first; a push
appends at the end.  The Arc-shared read-only tables (zobrist_randoms,
move_generator) are not part of the state; they are passed separately as
a Tables context. -/
@[ext]
structure Board where
  bb_side : Nat → Nat → Nat
  bb_pieces : Nat → Nat
  game_state : GameState
  history : List UnMakeInfo
  piece_list : Nat → Nat
  material_count : Nat → Nat

/-- The process-wide Zobrist random tables (spec section 3; zobrist.rs is
absent from src).  One 64-bit random value per (side, piece, square), per
castling-permission bitmask, per side to move, and per en-passant slot
(with a slot for None). -/
structure ZobristRandoms where
  piece : Nat → Nat → Nat → Nat
  castling : Nat → Nat
  side : Nat → Nat
  en_passant : Option Nat → Nat

/-- The read-only context shared by the board operations: the Zobrist
randoms, the PIECE_VALUES table (src evaluation::defs, absent from src;
spec section 4.2: put_piece adds PIECE_VALUES[piece] to the material
count), and the square-attacked predicate.  Modelled from the spec:
square_attacked (spec section 4.3) is backed by the attack tables of the
move generator, whose sources are absent from src, so it is taken here as
an opaque-to-the-proofs function parameter. -/
structure Tables where
  zrPiece : Nat → Nat → Nat → Nat
  zrCastling : Nat → Nat
  zrSide : Nat → Nat
  zrEnPassant : Option Nat → Nat
  piece_values : Nat → Nat
  square_attacked : Board → Nat → Nat → Bool

/-- Two-index function update, used for the bb_side array. -/
def upd2 (f : Nat → Nat → Nat) (s p v : Nat) : Nat → Nat → Nat :=
  fun a b => if a = s ∧ b = p then v else f a b

/-- Board::remove_piece (src/src/board.rs lines 96-102): clear the piece
list slot, subtract the piece value from the material count, XOR the
piece random out of the Zobrist key, and clear the square bit in
bb_side[side][piece] and bb_pieces[side] (the source clears with XOR). -/
def remove_piece (t : Tables) (b : Board) (side piece square : Nat) : Board :=
  { b with
    piece_list := Function.update b.piece_list square PNONE
    material_count := Function.update b.material_count side
      (subU16 (b.material_count side) (t.piece_values piece))
    game_state := { b.game_state with
      zobrist_key := b.game_state.zobrist_key ^^^ t.zrPiece side piece square }
    bb_side := upd2 b.bb_side side piece (b.bb_side side piece ^^^ bbSquare square)
    bb_pieces := Function.update b.bb_pieces side (b.bb_pieces side ^^^ bbSquare square) }

/-- Board::put_piece (src/src/board.rs lines 105-111): set the square bit
in bb_side[side][piece] and bb_pieces[side] (the source sets with OR),
XOR the piece random into the Zobrist key, add the piece value to the
material count, and write the piece into the piece list. -/
def put_piece (t : Tables) (b : Board) (side piece square : Nat) : Board :=
  { b with
    bb_side := upd2 b.bb_side side piece (b.bb_side side piece ||| bbSquare square)
    bb_pieces := Function.update b.bb_pieces side (b.bb_pieces side ||| bbSquare square)
    game_state := { b.game_state with
      zobrist_key := b.game_state.zobrist_key ^^^ t.zrPiece side piece square }
    material_count := Function.update b.material_count side
      (addU16 (b.material_count side) (t.piece_values piece))
    piece_list := Function.update b.piece_list square piece }

/-- Board::clear_ep_square (src/src/board.rs lines 127-131): XOR the
current en-passant contribution out of the Zobrist key, set the
en-passant square to None, and XOR the None contribution back in. -/
def clear_ep_square (t : Tables) (b : Board) : Board :=
  let z1 := b.game_state.zobrist_key ^^^ t.zrEnPassant b.game_state.en_passant
  { b with game_state := { b.game_state with
      en_passant := none
      zobrist_key := z1 ^^^ t.zrEnPassant none } }

/-- Board::set_ep_square (src/src/board.rs lines 120-124). -/
def set_ep_square (t : Tables) (b : Board) (square : Nat) : Board :=
  let z1 := b.game_state.zobrist_key ^^^ t.zrEnPassant b.game_state.en_passant
  { b with game_state := { b.game_state with
      en_passant := some square
      zobrist_key := z1 ^^^ t.zrEnPassant (some square) } }

section BitLemmas

/-- bbSquare is a power of two. -/
theorem bbSquare_eq (sq : Nat) : bbSquare sq = 2 ^ sq := by
  simp [bbSquare, Nat.shiftLeft_eq]

theorem testBit_bbSquare (sq i : Nat) : (bbSquare sq).testBit i = decide (sq = i) := by
  rw [bbSquare_eq]; simp [Nat.testBit_two_pow]

/-- Setting a clear bit with OR and then clearing it with XOR restores the word. -/
theorem lor_xor_cancel {a : Nat} {sq : Nat} (h : a.testBit sq = false) :
    (a ||| bbSquare sq) ^^^ bbSquare sq = a := by
  apply Nat.eq_of_testBit_eq
  intro i
  rw [Nat.testBit_xor, Nat.testBit_lor, testBit_bbSquare]
  by_cases hi : sq = i
  · subst hi; simp [h]
  · simp [hi]

/-- Clearing a set bit with XOR and then setting it with OR restores the word. -/
theorem xor_lor_cancel {a : Nat} {sq : Nat} (h : a.testBit sq = true) :
    (a ^^^ bbSquare sq) ||| bbSquare sq = a := by
  apply Nat.eq_of_testBit_eq
  intro i
  rw [Nat.testBit_lor, Nat.testBit_xor, testBit_bbSquare]
  by_cases hi : sq = i
  · subst hi; simp [h]
  · simp [hi]

theorem testBit_xor_bbSquare_ne {a : Nat} {sq i : Nat} (h : sq ≠ i) :
    (a ^^^ bbSquare sq).testBit i = a.testBit i := by
  rw [Nat.testBit_xor, testBit_bbSquare]; simp [h]

theorem testBit_lor_bbSquare_ne {a : Nat} {sq i : Nat} (h : sq ≠ i) :
    (a ||| bbSquare sq).testBit i = a.testBit i := by
  rw [Nat.testBit_lor, testBit_bbSquare]; simp [h]

theorem xor_xor_cancel (z e : Nat) : z ^^^ e ^^^ e = z := by
  rw [Nat.xor_assoc, Nat.xor_self, Nat.xor_zero]

theorem subU16_addU16 {a : Nat} (v : Nat) (h : a < 65536) :
    subU16 (addU16 a v) v = a := by
  unfold addU16 subU16
  omega

theorem addU16_subU16 {a : Nat} (v : Nat) (h : a < 65536) :
    addU16 (subU16 a v) v = a := by
  unfold addU16 subU16
  have h1 : v % 65536 ≤ 65536 := le_of_lt (Nat.mod_lt _ (by norm_num))
  have h2 : (a + 65536 - v % 65536) % 65536 = (a + 65536 - v % 65536) % 65536 := rfl
  omega

theorem addU16_lt (a v : Nat) : addU16 a v < 65536 := Nat.mod_lt _ (by norm_num)

theorem subU16_lt (a v : Nat) : subU16 a v < 65536 := Nat.mod_lt _ (by norm_num)

end BitLemmas

section UpdLemmas

theorem upd2_apply_same (f : Nat → Nat → Nat) (s p v : Nat) : upd2 f s p v s p = v := by
  simp [upd2]

theorem upd2_apply_ne (f : Nat → Nat → Nat) (s p v a c : Nat) (h : ¬(a = s ∧ c = p)) :
    upd2 f s p v a c = f a c := by
  simp [upd2, h]

theorem upd2_idem (f : Nat → Nat → Nat) (s p v w : Nat) :
    upd2 (upd2 f s p v) s p w = upd2 f s p w := by
  funext a c
  by_cases h : a = s ∧ c = p <;> simp [upd2, h]

theorem upd2_eq_self (f : Nat → Nat → Nat) (s p : Nat) : upd2 f s p (f s p) = f := by
  funext a c
  by_cases h : a = s ∧ c = p
  · obtain ⟨hs, hp⟩ := h; subst hs; subst hp; simp [upd2]
  · simp [upd2, h]

end UpdLemmas

/--
C7: remove_piece is the exact inverse of put_piece.  For every board b,
side s, piece type p, and square sq that is empty in b (the piece list
holds the None sentinel there and no bitboard of that side has the bit
set), with the u16 material counter in range, putting a piece on sq and
then removing the same piece from sq yields a board equal to b in every
component: bb_side, bb_pieces, piece_list, material_count and the Zobrist
key (src/src/board.rs lines 96-117).
-/
theorem put_then_remove_piece_eq (t : Tables) (b : Board) (s p sq : Nat)
    (hpl : b.piece_list sq = PNONE)
    (hbs : (b.bb_side s p).testBit sq = false)
    (hbp : (b.bb_pieces s).testBit sq = false)
    (hm : b.material_count s < 65536) :
    remove_piece t (put_piece t b s p sq) s p sq = b := by
  unfold put_piece remove_piece
  refine Board.ext ?_ ?_ ?_ rfl ?_ ?_
  · -- bb_side
    simp only [upd2_idem, upd2_apply_same]
    rw [lor_xor_cancel hbs]
    exact upd2_eq_self _ _ _
  · -- bb_pieces
    simp only [Function.update_idem, Function.update_same]
    rw [lor_xor_cancel hbp]
    exact Function.update_eq_self _ _
  · -- game_state
    refine GameState.ext rfl rfl rfl rfl rfl ?_
    exact xor_xor_cancel _ _
  · -- piece_list
    simp only [Function.update_idem]
    rw [← hpl]
    exact Function.update_eq_self _ _
  · -- material
    simp only [Function.update_idem, Function.update_same]
    rw [subU16_addU16 _ hm]
    exact Function.update_eq_self _ _

/-- Witness for C7 at a concrete input: an otherwise empty board with a
zero Zobrist table, putting and removing a white queen on D1. -/
def cBoard0 : Board :=
  { bb_side := fun _ _ => 0
    bb_pieces := fun _ => 0
    game_state :=
      { active_color := 0, castling := 0, en_passant := none
        halfmove_clock := 0, fullmove_number := 1, zobrist_key := 0 }
    history := []
    piece_list := fun _ => PNONE
    material_count := fun _ => 0 }

/-- A concrete all-zero table context used by the witnesses. -/
def cTables : Tables :=
  { zrPiece := fun _ _ _ => 0
    zrCastling := fun _ => 0
    zrSide := fun _ => 0
    zrEnPassant := fun _ => 0
    piece_values := fun _ => 0
    square_attacked := fun _ _ _ => false }

theorem put_then_remove_piece_eq_witness :
    remove_piece cTables (put_piece cTables cBoard0 WHITE QUEEN D1) WHITE QUEEN D1 = cBoard0 :=
  put_then_remove_piece_eq cTables cBoard0 WHITE QUEEN D1
    (by decide) (by decide) (by decide) (by decide)

/--
C8: clearing an already-cleared en-passant square is a no-op.  For every
board whose game_state.en_passant is None, clear_ep_square leaves the
board unchanged; in particular the Zobrist key is restored because the
None contribution is XOR-ed out and immediately back in
(src/src/board.rs lines 127-131).
-/
theorem clear_ep_square_none_id (t : Tables) (b : Board)
    (h : b.game_state.en_passant = none) :
    clear_ep_square t b = b := by
  unfold clear_ep_square
  refine Board.ext rfl rfl ?_ rfl rfl rfl
  refine GameState.ext rfl rfl h.symm rfl rfl ?_
  rw [h]
  exact xor_xor_cancel _ _

theorem clear_ep_square_none_id_witness :
    clear_ep_square cTables cBoard0 = cBoard0 :=
  clear_ep_square_none_id cTables cBoard0 rfl

/-- Board::get_pieces (src/src/board.rs lines 74-76): the bitboard of one
piece type for one side. -/
def get_pieces (b : Board) (piece side : Nat) : Nat := b.bb_side side piece

/-- u64::count_ones, the population count of a 64-bit word. -/
def count_ones (x : Nat) : Nat := (List.range 64).countP (fun i => x.testBit i)

/-- MAX_MOVE_RULE.  Modelled from the spec: the constant lives in
src/src/defs.rs of the full tree, absent from src; spec section 4.6 fixes
it at 100 plies. -/
def MAX_MOVE_RULE : Nat := 100

/-- Search::is_insufficient_material (src/src/search/utils.rs lines
148-172).  The SearchRefs carry the board; only the board is read, so the
board is the argument here. -/
def is_insufficient_material (b : Board) : Bool :=
  let w_p := decide (count_ones (get_pieces b PAWN WHITE) > 0)
  let b_p := decide (count_ones (get_pieces b PAWN BLACK) > 0)
  let w_q := decide (count_ones (get_pieces b QUEEN WHITE) > 0)
  let b_q := decide (count_ones (get_pieces b QUEEN BLACK) > 0)
  let w_r := decide (count_ones (get_pieces b ROOK WHITE) > 0)
  let b_r := decide (count_ones (get_pieces b ROOK BLACK) > 0)
  let w_b := decide (count_ones (get_pieces b BISHOP WHITE) > 1)
  let b_b := decide (count_ones (get_pieces b BISHOP BLACK) > 1)
  let w_bn := decide (count_ones (get_pieces b BISHOP WHITE) > 0) &&
    decide (count_ones (get_pieces b KNIGHT WHITE) > 0)
  let b_bn := decide (count_ones (get_pieces b BISHOP BLACK) > 0) &&
    decide (count_ones (get_pieces b KNIGHT BLACK) > 0)
  !(w_p || b_p || w_q || b_q || w_r || b_r || w_b || b_b || w_bn || b_bn)

/-- The i-th entry of the history stack, counted from the oldest
(Vec indexing; History::get_ref in the full tree). -/
def getHist (hist : List UnMakeInfo) (i : Nat) : UnMakeInfo := hist.getD i default

/-- The loop of Search::is_repetition (src/src/search/utils.rs lines
115-141), with the running index as the recursion argument.  The Rust
loop starts at i = len - 1, processes index i while i is nonzero (so the
oldest entry, index 0, is never examined), counts a match whenever the
historic Zobrist key equals the current key, and stops after processing
an entry whose stored halfmove clock is 0. -/
def repScan (hist : List UnMakeInfo) (key : Nat) : Nat → Nat
  | 0 => 0
  | i + 1 =>
    let historic := getHist hist (i + 1)
    let c := if historic.zobrist_key = key then 1 else 0
    if historic.halfmove_clock = 0 then c else c + repScan hist key i

/-- Search::is_repetition (src/src/search/utils.rs lines 115-141).  For an
empty history the Rust expression len - 1 underflows and the following
indexing panics; on Nat the start index becomes 0 and the scan returns 0,
so the theorems below carry the hypothesis that the history is
nonempty. -/
def is_repetition (b : Board) : Nat :=
  repScan b.history b.game_state.zobrist_key (b.history.length - 1)

/-- Search::is_draw (src/src/search/utils.rs lines 107-112). -/
def is_draw (b : Board) : Bool :=
  let is_max_move_rule := decide (b.game_state.halfmove_clock ≥ MAX_MOVE_RULE)
  is_insufficient_material b || decide (is_repetition b > 0) || is_max_move_rule

/--
C6: Search::is_insufficient_material returns true iff neither side has a
pawn, neither side has a queen, neither side has a rook, neither side has
two or more bishops, and neither side has both a bishop and a knight
(src/src/search/utils.rs lines 148-172).
-/
theorem is_insufficient_material_iff (b : Board) :
    is_insufficient_material b = true ↔
      (count_ones (get_pieces b PAWN WHITE) = 0 ∧ count_ones (get_pieces b PAWN BLACK) = 0) ∧
      (count_ones (get_pieces b QUEEN WHITE) = 0 ∧ count_ones (get_pieces b QUEEN BLACK) = 0) ∧
      (count_ones (get_pieces b ROOK WHITE) = 0 ∧ count_ones (get_pieces b ROOK BLACK) = 0) ∧
      (count_ones (get_pieces b BISHOP WHITE) ≤ 1 ∧ count_ones (get_pieces b BISHOP BLACK) ≤ 1) ∧
      ¬(count_ones (get_pieces b BISHOP WHITE) > 0 ∧ count_ones (get_pieces b KNIGHT WHITE) > 0) ∧
      ¬(count_ones (get_pieces b BISHOP BLACK) > 0 ∧ count_ones (get_pieces b KNIGHT BLACK) > 0) := by
  simp only [is_insufficient_material, Bool.not_eq_true', Bool.or_eq_false_iff,
    Bool.and_eq_false_iff, decide_eq_false_iff_not, not_lt]
  omega
/-- Declarative reading of one examined index of the repetition scan: the
entry at index i (1-based from the oldest; index 0 is never examined) is
reached by the backward scan exactly when no entry strictly above it has
halfmove clock 0. -/
theorem repScan_pos_iff (hist : List UnMakeInfo) (key : Nat) (n : Nat) :
    0 < repScan hist key n ↔
      ∃ i, 1 ≤ i ∧ i ≤ n ∧ (getHist hist i).zobrist_key = key ∧
        ∀ j, j ≤ n → i < j → (getHist hist j).halfmove_clock ≠ 0 := by
  induction n with
  | zero =>
    simp only [repScan]
    constructor
    · intro h; omega
    · rintro ⟨i, h1, h0, -⟩; omega
  | succ n ih =>
    simp only [repScan]
    by_cases hs : (getHist hist (n + 1)).halfmove_clock = 0
    · -- the scan stops after examining index n + 1
      rw [if_pos hs]
      by_cases hk : (getHist hist (n + 1)).zobrist_key = key
      · rw [if_pos hk]
        constructor
        · intro _
          exact ⟨n + 1, by omega, by omega, hk, fun j hj1 hj2 => by omega⟩
        · intro _; omega
      · rw [if_neg hk]
        constructor
        · intro h; omega
        · rintro ⟨i, h1, h2, h3, h4⟩
          rcases Nat.lt_or_ge i (n + 1) with hi | hi
          · exact absurd hs (h4 (n + 1) (by omega) hi)
          · have : i = n + 1 := by omega
            subst this
            exact absurd h3 hk
    · -- index n + 1 is reversible: the scan continues downward
      rw [if_neg hs]
      by_cases hk : (getHist hist (n + 1)).zobrist_key = key
      · rw [if_pos hk]
        constructor
        · intro _
          exact ⟨n + 1, by omega, by omega, hk, fun j hj1 hj2 => by omega⟩
        · intro _; omega
      · rw [if_neg hk]
        simp only [Nat.zero_add]
        rw [ih]
        constructor
        · rintro ⟨i, h1, h2, h3, h4⟩
          refine ⟨i, h1, by omega, h3, fun j hj1 hj2 => ?_⟩
          rcases Nat.lt_or_ge j (n + 1) with hj | hj
          · exact h4 j (by omega) hj2
          · have : j = n + 1 := by omega
            rw [this]; exact hs
        · rintro ⟨i, h1, h2, h3, h4⟩
          rcases Nat.lt_or_ge i (n + 1) with hi | hi
          · exact ⟨i, h1, by omega, h3, fun j hj1 hj2 => h4 j (by omega) hj2⟩
          · have : i = n + 1 := by omega
            subst this
            exact absurd h3 hk

/-- The claim C5 reading of the repetition clause, written from its words:
some snapshot located after the most recent irreversible move (that is,
with no snapshot of halfmove clock 0 strictly above it) carries the
current Zobrist key.  This version does not exclude the oldest entry. -/
def claimRepetition (b : Board) : Prop :=
  ∃ i, i < b.history.length ∧
    (getHist b.history i).zobrist_key = b.game_state.zobrist_key ∧
    ∀ j, j < b.history.length → i < j → (getHist b.history j).halfmove_clock ≠ 0

/-- Concrete board refuting claim C5 as stated: one history entry (index
0) stores halfmove clock 0 and the current Zobrist key, so the claim
counts it as a repetition, but the scan of is_repetition never examines
index 0 and finds nothing.  A white queen keeps the material sufficient
and the halfmove clock is far from 100. -/
def cBoardRep : Board :=
  { bb_side := fun s p => if s = WHITE ∧ p = QUEEN then 1 else 0
    bb_pieces := fun s => if s = WHITE then 1 else 0
    game_state :=
      { active_color := 0, castling := 0, en_passant := none
        halfmove_clock := 5, fullmove_number := 10, zobrist_key := 999 }
    history :=
      [{ active_color := 1, castling := 0, en_passant := none
         halfmove_clock := 0, fullmove_number := 10, zobrist_key := 999
         this_move := default }]
    piece_list := fun sq => if sq = 0 then QUEEN else PNONE
    material_count := fun s => if s = WHITE then 900 else 0 }

/--
C5 counterexample: on cBoardRep the claimed equivalence fails.  is_draw
is false (the scan of is_repetition starts at index len - 1 = 0 and the
loop guard i != 0 exits at once), while the claimed right-hand side is
true: no snapshot with halfmove clock 0 lies above index 0, and the
snapshot at index 0 repeats the current Zobrist key.
-/
theorem is_draw_claim_counterexample :
    ¬ (is_draw cBoardRep = true ↔
        (is_insufficient_material cBoardRep = true ∨
          cBoardRep.game_state.halfmove_clock ≥ MAX_MOVE_RULE ∨
          claimRepetition cBoardRep)) := by
  intro h
  have hrhs : is_insufficient_material cBoardRep = true ∨
      cBoardRep.game_state.halfmove_clock ≥ MAX_MOVE_RULE ∨ claimRepetition cBoardRep := by
    refine Or.inr (Or.inr ⟨0, by decide, by decide, ?_⟩)
    intro j hj hj0
    simp only [cBoardRep, List.length_singleton] at hj
    omega
  have hfalse : is_draw cBoardRep = false := by decide
  rw [h.mpr hrhs] at hfalse
  exact absurd hfalse (by decide)

/--
C5 amended: is_draw returns true iff the halfmove clock is at least
MAX_MOVE_RULE (100), or the material is insufficient to mate, or some
snapshot at index 1 or higher of the history stack (the backward scan
stops after examining a snapshot with halfmove clock 0 and never examines
the oldest entry, index 0) with no halfmove-clock-0 snapshot strictly
above it has a Zobrist key equal to the current position key
(src/src/search/utils.rs lines 107-141).
-/
theorem is_draw_iff (b : Board) (hlen : 0 < b.history.length) :
    is_draw b = true ↔
      (is_insufficient_material b = true ∨
        b.game_state.halfmove_clock ≥ MAX_MOVE_RULE ∨
        ∃ i, 1 ≤ i ∧ i < b.history.length ∧
          (getHist b.history i).zobrist_key = b.game_state.zobrist_key ∧
          ∀ j, j < b.history.length → i < j → (getHist b.history j).halfmove_clock ≠ 0) := by
  simp only [is_draw, Bool.or_eq_true, decide_eq_true_eq, is_repetition, gt_iff_lt]
  rw [repScan_pos_iff]
  constructor
  · rintro ((hi | hr) | hm)
    · exact Or.inl hi
    · obtain ⟨i, h1, h2, h3, h4⟩ := hr
      exact Or.inr (Or.inr ⟨i, h1, by omega, h3, fun j hj1 hj2 => h4 j (by omega) hj2⟩)
    · exact Or.inr (Or.inl hm)
  · rintro (hi | hm | ⟨i, h1, h2, h3, h4⟩)
    · exact Or.inl (Or.inl hi)
    · exact Or.inr hm
    · exact Or.inl (Or.inr ⟨i, h1, by omega, h3, fun j hj1 hj2 => h4 j (by omega) hj2⟩)

/-- Witness for the amended C5 at a concrete input (the cBoardRep board,
whose history is nonempty). -/
theorem is_draw_iff_witness :
    0 < cBoardRep.history.length ∧
      (is_draw cBoardRep = true ↔
        (is_insufficient_material cBoardRep = true ∨
          cBoardRep.game_state.halfmove_clock ≥ MAX_MOVE_RULE ∨
          ∃ i, 1 ≤ i ∧ i < cBoardRep.history.length ∧
            (getHist cBoardRep.history i).zobrist_key = cBoardRep.game_state.zobrist_key ∧
            ∀ j, j < cBoardRep.history.length → i < j →
              (getHist cBoardRep.history j).halfmove_clock ≠ 0)) :=
  ⟨by decide, is_draw_iff cBoardRep (by decide)⟩
/-- OVERHEAD.  Modelled from the spec: the constant lives in
src/src/search/defs.rs of the full tree, absent from src; spec section
4.6 and claim C10 fix it at 25 ms. -/
def OVERHEAD : Nat := 25

/-- The UCI movetime handler arithmetic
(src/src/engine/comm_reports.rs lines 120-124, UciReport::GoMoveTime):
sp.move_time = msecs - (OVERHEAD as u128), an unguarded u128 subtraction.
Written with the release-build wrapping semantics (a debug build panics
on underflow instead). -/
def go_move_time_budget (msecs : Nat) : Nat :=
  (msecs + 2 ^ 128 - OVERHEAD % 2 ^ 128) % 2 ^ 128

/--
C10: the movetime budget subtraction is underflow-free only under the
precondition msecs >= OVERHEAD (25).  For msecs >= 25 the handler stores
msecs - 25; for any requested movetime below 25 the unsigned arithmetic
underflows (wrapping to msecs + 2^128 - 25, a value larger than the
request) instead of clamping to zero.
-/
theorem go_move_time_budget_underflow (msecs : Nat) (h : msecs < 2 ^ 128) :
    (OVERHEAD ≤ msecs → go_move_time_budget msecs = msecs - OVERHEAD) ∧
    (msecs < OVERHEAD →
      go_move_time_budget msecs = msecs + (2 ^ 128 - OVERHEAD) ∧
      msecs < go_move_time_budget msecs ∧ go_move_time_budget msecs ≠ 0) := by
  have h128 : (2 : Nat) ^ 128 = 340282366920938463463374607431768211456 := by norm_num
  simp only [go_move_time_budget, OVERHEAD, h128] at *
  omega

/-- Witness for C10 at the concrete inputs 10 ms (underflowing) and
1000 ms (in range). -/
theorem go_move_time_budget_underflow_witness :
    ((OVERHEAD ≤ 10 → go_move_time_budget 10 = 10 - OVERHEAD) ∧
      (10 < OVERHEAD →
        go_move_time_budget 10 = 10 + (2 ^ 128 - OVERHEAD) ∧
        10 < go_move_time_budget 10 ∧ go_move_time_budget 10 ≠ 0)) ∧
    ((OVERHEAD ≤ 1000 → go_move_time_budget 1000 = 1000 - OVERHEAD) ∧
      (1000 < OVERHEAD →
        go_move_time_budget 1000 = 1000 + (2 ^ 128 - OVERHEAD) ∧
        1000 < go_move_time_budget 1000 ∧ go_move_time_budget 1000 ≠ 0)) :=
  ⟨go_move_time_budget_underflow 10 (by norm_num),
   go_move_time_budget_underflow 1000 (by norm_num)⟩

/-- u64 bitwise complement: XOR with the all-ones 64-bit word. -/
def bnot64 (x : Nat) : Nat := x ^^^ (2 ^ 64 - 1)

/-- BOTH: the index of the combined-occupancy slot of bb_pieces in the
early board layout used by src/src/movegen.rs. -/
def BOTH : Nat := 2

/-- The board fields read by the early move generator
(src/src/movegen.rs): a per-(piece, side) bitboard accessor and the
bb_pieces occupancy array indexed WHITE, BLACK, BOTH.  The rest of that
revision of the Board is absent from src and is not needed here. -/
structure MgBoard where
  piece : Nat → Nat → Nat
  bb_pieces : Nat → Nat

/-- The target computation of fn non_slider (src/src/movegen.rs lines
31-47) for one from-square: the attack mask comes from the king or
knight table of the Magics, quiet targets are mask & !bb_pieces[BOTH],
capture targets are mask & bb_pieces[opponent].  Returns (quiet_to,
capture_to). -/
def non_slider_targets (king knight : Nat → Nat) (b : MgBoard)
    (piece side fromSq : Nat) : Nat × Nat :=
  let opponent := side ^^^ 1
  let mask : Nat :=
    if piece = KING then king fromSq
    else if piece = KNIGHT then knight fromSq
    else 0
  let quiet_to := mask &&& bnot64 (b.bb_pieces BOTH)
  let capture_to := mask &&& b.bb_pieces opponent
  (quiet_to, capture_to)

theorem testBit_bnot64 (x i : Nat) :
    (bnot64 x).testBit i = (x.testBit i ^^ decide (i < 64)) := by
  rw [bnot64, Nat.testBit_xor, Nat.testBit_two_pow_sub_one]

/--
C9: the non-slider move generation split is the specified one.  Whenever
the occupancy slots are consistent (bb_pieces[BOTH] is the union of the
two disjoint side occupancies, all 64-bit), the capture targets computed
by non_slider equal mask & !own & enemy and the quiet targets equal
mask & !own & !enemy, where mask is the king or knight attack-table entry
for the from-square, own the mover occupancy and enemy the opponent
occupancy (src/src/movegen.rs lines 31-47).
-/
theorem non_slider_targets_eq (king knight : Nat → Nat) (b : MgBoard)
    (piece side fromSq : Nat)
    (hp : piece = KING ∨ piece = KNIGHT)
    (hboth : b.bb_pieces BOTH = b.bb_pieces side ||| b.bb_pieces (side ^^^ 1))
    (hdisj : b.bb_pieces side &&& b.bb_pieces (side ^^^ 1) = 0)
    (hown : b.bb_pieces side < 2 ^ 64)
    (henemy : b.bb_pieces (side ^^^ 1) < 2 ^ 64) :
    (non_slider_targets king knight b piece side fromSq).2 =
      (if piece = KING then king fromSq else knight fromSq) &&&
        bnot64 (b.bb_pieces side) &&& b.bb_pieces (side ^^^ 1) ∧
    (non_slider_targets king knight b piece side fromSq).1 =
      (if piece = KING then king fromSq else knight fromSq) &&&
        bnot64 (b.bb_pieces side) &&& bnot64 (b.bb_pieces (side ^^^ 1)) := by
  have hmask : (if piece = KING then king fromSq else if piece = KNIGHT then knight fromSq
      else 0) = (if piece = KING then king fromSq else knight fromSq) := by
    rcases hp with h | h
    · rw [h]; simp [KING]
    · rw [h]
      by_cases hk : KNIGHT = KING
      · exact absurd hk (by decide)
      · simp [KNIGHT, KING]
  have hbit : ∀ i, (b.bb_pieces side).testBit i = true →
      (b.bb_pieces (side ^^^ 1)).testBit i = false := by
    intro i hi
    by_contra hcon
    rw [Bool.not_eq_false] at hcon
    have : (b.bb_pieces side &&& b.bb_pieces (side ^^^ 1)).testBit i = true := by
      rw [Nat.testBit_and, hi, hcon]; rfl
    rw [hdisj] at this
    simp [Nat.zero_testBit] at this
  constructor
  · -- capture targets
    simp only [non_slider_targets, hmask]
    apply Nat.eq_of_testBit_eq
    intro i
    simp only [Nat.testBit_and, testBit_bnot64]
    by_cases hi : i < 64
    · simp only [hi, decide_True]
      cases hos : (b.bb_pieces side).testBit i
      · simp
      · rw [hbit i hos]; simp
    · have he : (b.bb_pieces (side ^^^ 1)).testBit i = false :=
        Nat.testBit_lt_two_pow (lt_of_lt_of_le henemy
          (Nat.pow_le_pow_right (by norm_num) (by omega)))
      simp [he]
  · -- quiet targets
    simp only [non_slider_targets, hmask]
    apply Nat.eq_of_testBit_eq
    intro i
    simp only [Nat.testBit_and, testBit_bnot64, hboth, Nat.testBit_lor]
    by_cases hi : i < 64
    · simp only [hi, decide_True]
      cases hos : (b.bb_pieces side).testBit i <;>
        cases hoe : (b.bb_pieces (side ^^^ 1)).testBit i <;> simp
    · have he : (b.bb_pieces (side ^^^ 1)).testBit i = false :=
        Nat.testBit_lt_two_pow (lt_of_lt_of_le henemy
          (Nat.pow_le_pow_right (by norm_num) (by omega)))
      have ho : (b.bb_pieces side).testBit i = false :=
        Nat.testBit_lt_two_pow (lt_of_lt_of_le hown
          (Nat.pow_le_pow_right (by norm_num) (by omega)))
      simp [he, ho]

/-- Witness for C9 at a concrete input: a white king on E1 with one
white pawn on E2 and one black pawn on D2. -/
def cMgBoard : MgBoard :=
  { piece := fun p s => if p = KING ∧ s = WHITE then bbSquare E1 else 0
    bb_pieces := fun s =>
      if s = WHITE then bbSquare E1 ||| bbSquare 12
      else if s = BLACK then bbSquare 11
      else bbSquare E1 ||| bbSquare 12 ||| bbSquare 11 }

theorem non_slider_targets_eq_witness :
    (non_slider_targets (fun _ => 0x3828) (fun _ => 0) cMgBoard KING WHITE E1).2 =
      (if KING = KING then (0x3828 : Nat) else 0) &&&
        bnot64 (cMgBoard.bb_pieces WHITE) &&& cMgBoard.bb_pieces (WHITE ^^^ 1) ∧
    (non_slider_targets (fun _ => 0x3828) (fun _ => 0) cMgBoard KING WHITE E1).1 =
      (if KING = KING then (0x3828 : Nat) else 0) &&&
        bnot64 (cMgBoard.bb_pieces WHITE) &&& bnot64 (cMgBoard.bb_pieces (WHITE ^^^ 1)) :=
  non_slider_targets_eq (fun _ => 0x3828) (fun _ => 0) cMgBoard KING WHITE E1
    (Or.inl rfl) (by decide) (by decide) (by decide) (by decide)
/-- u8 bitwise complement, used for clearing castling-permission bits
(the Rust code clears with x &= !mask on u8). -/
def bnot8 (x : Nat) : Nat := x ^^^ 255

/-- Replace only the game state of a board.  The incremental mutators of
make_move that touch nothing but the irreversible state (Zobrist-key
XORs, castling mask, en-passant slot, clocks, side to move) are written
through this helper. -/
def withGS (b : Board) (g : GameState) : Board := { b with game_state := g }

/-- u64::trailing_zeros: index of the least set bit, 64 for zero. -/
def trailingZeros64 (x : Nat) : Nat :=
  ((List.range 64).find? (fun i => x.testBit i)).getD 64

@[simp] theorem withGS_bb_side (b : Board) (g : GameState) : (withGS b g).bb_side = b.bb_side := rfl
@[simp] theorem withGS_bb_pieces (b : Board) (g : GameState) : (withGS b g).bb_pieces = b.bb_pieces := rfl
@[simp] theorem withGS_piece_list (b : Board) (g : GameState) : (withGS b g).piece_list = b.piece_list := rfl
@[simp] theorem withGS_material (b : Board) (g : GameState) : (withGS b g).material_count = b.material_count := rfl
@[simp] theorem withGS_history (b : Board) (g : GameState) : (withGS b g).history = b.history := rfl
@[simp] theorem withGS_game_state (b : Board) (g : GameState) : (withGS b g).game_state = g := rfl

/-- Replace only the history of a board (the stack push and pop of make
and unmake). -/
def withHistory (b : Board) (l : List UnMakeInfo) : Board := { b with history := l }

@[simp] theorem withHistory_bb_side (b : Board) (l : List UnMakeInfo) :
    (withHistory b l).bb_side = b.bb_side := rfl
@[simp] theorem withHistory_bb_pieces (b : Board) (l : List UnMakeInfo) :
    (withHistory b l).bb_pieces = b.bb_pieces := rfl
@[simp] theorem withHistory_piece_list (b : Board) (l : List UnMakeInfo) :
    (withHistory b l).piece_list = b.piece_list := rfl
@[simp] theorem withHistory_material (b : Board) (l : List UnMakeInfo) :
    (withHistory b l).material_count = b.material_count := rfl
@[simp] theorem withHistory_history (b : Board) (l : List UnMakeInfo) :
    (withHistory b l).history = l := rfl
@[simp] theorem withHistory_game_state (b : Board) (l : List UnMakeInfo) :
    (withHistory b l).game_state = b.game_state := rfl

/-- The snapshot make_move pushes onto the history stack
(src/src/board/make_move.rs lines 13-21, UnMakeInfo::new). -/
def snapshotOf (b : Board) (m : Move) : UnMakeInfo :=
  { active_color := b.game_state.active_color
    castling := b.game_state.castling
    en_passant := b.game_state.en_passant
    halfmove_clock := b.game_state.halfmove_clock
    fullmove_number := b.game_state.fullmove_number
    zobrist_key := b.game_state.zobrist_key
    this_move := m }

/-- The castling-permission adjustment made when a rook is captured on a
corner square (src/src/board/make_move.rs lines 201-217): XOR the old
castling contribution out of the key, clear the matching right of the
side whose rook was captured, XOR the new contribution in.  Only the
game state changes. -/
def adjust_castling_perms_on_rook_capture (t : Tables) (b : Board) (side square : Nat) : Board :=
  let z1 := b.game_state.zobrist_key ^^^ t.zrCastling b.game_state.castling
  let c0 := b.game_state.castling
  let c1 :=
    if side = WHITE then
      (if square = H8 then c0 &&& bnot8 CASTLE_BK
       else if square = A8 then c0 &&& bnot8 CASTLE_BQ
       else c0)
    else
      (if square = H1 then c0 &&& bnot8 CASTLE_WK
       else if square = A1 then c0 &&& bnot8 CASTLE_WQ
       else c0)
  withGS b { b.game_state with castling := c1, zobrist_key := z1 ^^^ t.zrCastling c1 }

/-- The castling special case of make_move
(src/src/board/make_move.rs lines 56-107): XOR the old castling rights
out of the key; for each of the four castle destination squares move the
matching rook and clear both rights of the moving side; XOR the
resulting rights back in. -/
def mmCastle (t : Tables) (b : Board) (us toSq : Nat) : Board :=
  let b := withGS b { b.game_state with
    zobrist_key := b.game_state.zobrist_key ^^^ t.zrCastling b.game_state.castling }
  let b :=
    if toSq = G1 then
      let b := remove_piece t b us ROOK H1
      let b := put_piece t b us ROOK F1
      withGS b { b.game_state with
        castling := b.game_state.castling &&& bnot8 (CASTLE_WK + CASTLE_WQ) }
    else b
  let b :=
    if toSq = C1 then
      let b := remove_piece t b us ROOK A1
      let b := put_piece t b us ROOK D1
      withGS b { b.game_state with
        castling := b.game_state.castling &&& bnot8 (CASTLE_WK + CASTLE_WQ) }
    else b
  let b :=
    if toSq = G8 then
      let b := remove_piece t b us ROOK H8
      let b := put_piece t b us ROOK F8
      withGS b { b.game_state with
        castling := b.game_state.castling &&& bnot8 (CASTLE_BK + CASTLE_BQ) }
    else b
  let b :=
    if toSq = C8 then
      let b := remove_piece t b us ROOK A8
      let b := put_piece t b us ROOK D8
      withGS b { b.game_state with
        castling := b.game_state.castling &&& bnot8 (CASTLE_BK + CASTLE_BQ) }
    else b
  withGS b { b.game_state with
    zobrist_key := b.game_state.zobrist_key ^^^ t.zrCastling b.game_state.castling }

/-- Castling-permission drop for a king or rook moving off its starting
square (src/src/board/make_move.rs lines 118-150).  Only the game state
changes. -/
def mmKingRookPerms (t : Tables) (b : Board) (fromSq : Nat) : Board :=
  let z1 := b.game_state.zobrist_key ^^^ t.zrCastling b.game_state.castling
  let c := b.game_state.castling
  let c := if fromSq = H1 then c &&& bnot8 CASTLE_WK else c
  let c := if fromSq = A1 then c &&& bnot8 CASTLE_WQ else c
  let c := if fromSq = E1 then c &&& bnot8 (CASTLE_WK + CASTLE_WQ) else c
  let c := if fromSq = H8 then c &&& bnot8 CASTLE_BK else c
  let c := if fromSq = A8 then c &&& bnot8 CASTLE_BQ else c
  let c := if fromSq = E8 then c &&& bnot8 (CASTLE_BK + CASTLE_BQ) else c
  withGS b { b.game_state with castling := c, zobrist_key := z1 ^^^ t.zrCastling c }

/-- Capture removal step of make_move (src/src/board/make_move.rs lines
40-45): remove the captured piece from the target square; a captured
rook on a corner square also costs the matching castling right. -/
def mmCapture (t : Tables) (us : Nat) (m : Move) (b : Board) : Board :=
  if m.captured ≠ PNONE then
    let b1 := remove_piece t b (us ^^^ 1) m.captured m.toSq
    if m.captured = ROOK then adjust_castling_perms_on_rook_capture t b1 us m.toSq else b1
  else b

/-- The move itself (src/src/board/make_move.rs lines 48-53): pick the
piece up from the from-square and put it (or, on a promotion, the
promoted piece) on the target square. -/
def mmMovePiece (t : Tables) (us : Nat) (m : Move) (b : Board) : Board :=
  let b := remove_piece t b us m.piece m.fromSq
  if m.promoted ≠ PNONE then put_piece t b us m.promoted m.toSq
  else put_piece t b us m.piece m.toSq

/-- Castling special case step (src/src/board/make_move.rs line 56). -/
def mmCastleStep (t : Tables) (us : Nat) (m : Move) (b : Board) : Board :=
  if m.castling then mmCastle t b us m.toSq else b

/-- En-passant capture step (src/src/board/make_move.rs lines 110-113):
remove the opponent pawn one rank behind the target square. -/
def mmEpStep (t : Tables) (us : Nat) (m : Move) (b : Board) : Board :=
  if m.en_passant then
    remove_piece t b (us ^^^ 1) PAWN (if us = WHITE then m.toSq - 8 else m.toSq + 8)
  else b

/-- Castling-permission drop for king or rook moves
(src/src/board/make_move.rs line 118). -/
def mmPermsStep (t : Tables) (m : Move) (b : Board) : Board :=
  if ¬m.castling ∧ (m.piece = KING ∨ m.piece = ROOK) then mmKingRookPerms t b m.fromSq
  else b

/-- Clear the en-passant square if it is set
(src/src/board/make_move.rs lines 153-156).  Note: only the current
(Some) contribution is XOR-ed out, unlike the clear_ep_square helper of
src/src/board.rs. -/
def mmClearEp (t : Tables) (b : Board) : Board :=
  if b.game_state.en_passant.isSome then
    withGS b { b.game_state with
      en_passant := none
      zobrist_key := b.game_state.zobrist_key ^^^ t.zrEnPassant b.game_state.en_passant }
  else b

/-- A double step sets the en-passant square behind the pawn
(src/src/board/make_move.rs lines 159-166). -/
def mmDoubleStep (t : Tables) (us : Nat) (m : Move) (b : Board) : Board :=
  if m.double_step then
    let ep := if us = WHITE then some (m.toSq - 8) else some (m.toSq + 8)
    withGS b { b.game_state with
      en_passant := ep
      zobrist_key := b.game_state.zobrist_key ^^^ t.zrEnPassant ep }
  else b

/-- Flip the side to move (src/src/board/make_move.rs lines 169-171). -/
def mmSwapSide (t : Tables) (us : Nat) (b : Board) : Board :=
  withGS b { b.game_state with
    active_color := us ^^^ 1
    zobrist_key := b.game_state.zobrist_key ^^^ t.zrSide us ^^^ t.zrSide (us ^^^ 1) }

/-- Halfmove clock: reset on a pawn move or capture, else increment
(u8 wrap; src/src/board/make_move.rs lines 175-179). -/
def mmClock (m : Move) (b : Board) : Board :=
  withGS b { b.game_state with
    halfmove_clock :=
      if m.piece = PAWN ∨ m.captured ≠ PNONE then 0
      else (b.game_state.halfmove_clock + 1) % 256 }

/-- Fullmove number: increment after a black move (u16 wrap;
src/src/board/make_move.rs lines 182-184). -/
def mmFullmove (us : Nat) (b : Board) : Board :=
  if us = BLACK then
    withGS b { b.game_state with
      fullmove_number := (b.game_state.fullmove_number + 1) % 65536 }
  else b

/-- make_move up to, but not including, the final legality check: the
mutations of src/src/board/make_move.rs lines 11-185, in source order.
The snapshot push is lines 13-22; us is the active color before the
move. -/
def make_move_applied (t : Tables) (b0 : Board) (m : Move) : Board :=
  let us := b0.game_state.active_color
  let b := withHistory b0 (b0.history ++ [snapshotOf b0 m])
  mmFullmove us (mmClock m (mmSwapSide t us (mmDoubleStep t us m (mmClearEp t
    (mmPermsStep t m (mmEpStep t us m (mmCastleStep t us m
      (mmMovePiece t us m (mmCapture t us m b)))))))))

/-- The rook relocation reversal of unmake for a castling move.
Modelled from the spec (section 4.4): unmake reverses each incremental
mutation in the opposite order; for castling the rook moved H1-F1 /
A1-D1 / H8-F8 / A8-D8 goes back.  src/src/board/unmake_move.rs is absent
from src. -/
def umCastle (t : Tables) (b : Board) (us toSq : Nat) : Board :=
  let b := if toSq = G1 then put_piece t (remove_piece t b us ROOK F1) us ROOK H1 else b
  let b := if toSq = C1 then put_piece t (remove_piece t b us ROOK D1) us ROOK A1 else b
  let b := if toSq = G8 then put_piece t (remove_piece t b us ROOK F8) us ROOK H8 else b
  let b := if toSq = C8 then put_piece t (remove_piece t b us ROOK D8) us ROOK A8 else b
  b

/-- Reversal of the en-passant capture: put the opponent pawn back
behind the target square. -/
def umEpStep (t : Tables) (us : Nat) (m : Move) (b : Board) : Board :=
  if m.en_passant then
    put_piece t b (us ^^^ 1) PAWN (if us = WHITE then m.toSq - 8 else m.toSq + 8)
  else b

/-- Reversal of the castling rook relocation. -/
def umCastleStep (t : Tables) (us : Nat) (m : Move) (b : Board) : Board :=
  if m.castling then umCastle t b us m.toSq else b

/-- Reversal of the move itself: a promotion removes the promoted piece
from the target square and puts the pawn back on the source; otherwise
the moved piece goes back from the target to the source square. -/
def umMoveBack (t : Tables) (us : Nat) (m : Move) (b : Board) : Board :=
  if m.promoted ≠ PNONE then
    put_piece t (remove_piece t b us m.promoted m.toSq) us PAWN m.fromSq
  else
    put_piece t (remove_piece t b us m.piece m.toSq) us m.piece m.fromSq

/-- Reversal of the capture: put the captured piece back on the target
square. -/
def umCaptureBack (t : Tables) (us : Nat) (m : Move) (b : Board) : Board :=
  if m.captured ≠ PNONE then put_piece t b (us ^^^ 1) m.captured m.toSq else b

/-- The reversal body of unmake: given the popped snapshot, reverse each
incremental piece mutation of make in the opposite order using the
packed move, then restore the whole irreversible state (including the
Zobrist key) from the snapshot.  Modelled from the spec (section 4.4);
src/src/board/unmake_move.rs is absent from src. -/
def unmake_core (t : Tables) (stored : UnMakeInfo) (b : Board) : Board :=
  let m := stored.this_move
  let us := stored.active_color
  withGS (umCaptureBack t us m (umMoveBack t us m (umCastleStep t us m (umEpStep t us m b))))
    { active_color := stored.active_color
      castling := stored.castling
      en_passant := stored.en_passant
      halfmove_clock := stored.halfmove_clock
      fullmove_number := stored.fullmove_number
      zobrist_key := stored.zobrist_key }

/-- unmake_move.  Modelled from the spec (section 4.4): pop the snapshot
from the history stack and reverse the move it records (unmake_core).
src/src/board/unmake_move.rs is absent from src.  On an empty history
the Rust pop would panic; here the board is returned unchanged, and the
theorems only apply unmake to a board that make has just pushed to. -/
def unmake_move (t : Tables) (b : Board) : Board :=
  match b.history.getLast? with
  | none => b
  | some stored => unmake_core t stored (withHistory b b.history.dropLast)

/-- make_move (src/src/board/make_move.rs lines 11-198): apply the move,
locate the mover king, test whether the opponent attacks it, and on an
illegal move undo everything before returning false. -/
def make_move (t : Tables) (b0 : Board) (m : Move) : Board × Bool :=
  let b := make_move_applied t b0 m
  let us := b0.game_state.active_color
  let opponent := us ^^^ 1
  let king_square := trailingZeros64 (get_pieces b KING us)
  let is_legal := !t.square_attacked b opponent king_square
  if is_legal then (b, true) else (unmake_move t b, false)
/-- The facts a pseudo-legal move guarantees about the rook involved in a
castling move: it stands on its corner square rf and its destination rt
next to the king is empty. -/
abbrev rookOkAt (b : Board) (us rf rt : Nat) : Prop :=
  b.piece_list rf = ROOK ∧
  (b.bb_side us ROOK).testBit rf = true ∧
  (b.bb_pieces us).testBit rf = true ∧
  b.piece_list rt = PNONE ∧
  (b.bb_side us ROOK).testBit rt = false ∧
  (b.bb_pieces us).testBit rt = false

/-- The facts a pseudo-legal en-passant capture guarantees about the
square of the captured pawn (one rank behind the target square). -/
abbrev epOk (b : Board) (us toSq fromSq : Nat) : Prop :=
  (us = WHITE → 8 ≤ toSq) ∧
  (if us = WHITE then toSq - 8 else toSq + 8) ≠ fromSq ∧
  (if us = WHITE then toSq - 8 else toSq + 8) ≠ toSq ∧
  b.piece_list (if us = WHITE then toSq - 8 else toSq + 8) = PAWN ∧
  (b.bb_side (us ^^^ 1) PAWN).testBit (if us = WHITE then toSq - 8 else toSq + 8) = true ∧
  (b.bb_pieces (us ^^^ 1)).testBit (if us = WHITE then toSq - 8 else toSq + 8) = true

/-- The consistency facts that a pseudo-legal move of the move generator
guarantees about the board it was generated for: the moving piece stands
on the from-square, the target square holds exactly the captured piece
(or nothing), the flag combinations are the ones the generator emits
(castling king moves, en-passant pawn captures and promotions exclude
one another), and the u16 material counters are in range.  make_move
assumes these facts; they are the precondition of the make and unmake
round-trip theorems. -/
abbrev makeOk (b : Board) (m : Move) : Prop :=
  m.fromSq ≠ m.toSq ∧
  b.piece_list m.fromSq = m.piece ∧
  (b.bb_side b.game_state.active_color m.piece).testBit m.fromSq = true ∧
  (b.bb_pieces b.game_state.active_color).testBit m.fromSq = true ∧
  (b.bb_pieces b.game_state.active_color).testBit m.toSq = false ∧
  (b.bb_side b.game_state.active_color
    (if m.promoted ≠ PNONE then m.promoted else m.piece)).testBit m.toSq = false ∧
  (m.captured ≠ PNONE →
      b.piece_list m.toSq = m.captured ∧
      (b.bb_side (b.game_state.active_color ^^^ 1) m.captured).testBit m.toSq = true ∧
      (b.bb_pieces (b.game_state.active_color ^^^ 1)).testBit m.toSq = true) ∧
  (m.captured = PNONE → b.piece_list m.toSq = PNONE) ∧
  (m.promoted ≠ PNONE →
    m.piece = PAWN ∧ m.promoted ≠ PAWN ∧ m.castling = false ∧ m.en_passant = false) ∧
  (m.castling = true →
    m.captured = PNONE ∧ m.promoted = PNONE ∧ m.en_passant = false ∧ m.piece = KING ∧
    ((b.game_state.active_color = WHITE ∧ m.fromSq = E1 ∧
       ((m.toSq = G1 ∧ rookOkAt b b.game_state.active_color H1 F1) ∨
        (m.toSq = C1 ∧ rookOkAt b b.game_state.active_color A1 D1))) ∨
     (b.game_state.active_color = BLACK ∧ m.fromSq = E8 ∧
       ((m.toSq = G8 ∧ rookOkAt b b.game_state.active_color H8 F8) ∨
        (m.toSq = C8 ∧ rookOkAt b b.game_state.active_color A8 D8))))) ∧
  (m.en_passant = true →
    m.captured = PNONE ∧ m.promoted = PNONE ∧ m.castling = false ∧ m.piece = PAWN ∧
    epOk b b.game_state.active_color m.toSq m.fromSq) ∧
  b.material_count b.game_state.active_color < 65536 ∧
  b.material_count (b.game_state.active_color ^^^ 1) < 65536

set_option synthInstance.maxSize 2000 in
set_option synthInstance.maxHeartbeats 1000000 in
instance decidableMakeOk (b : Board) (m : Move) : Decidable (makeOk b m) := by
  unfold makeOk rookOkAt epOk
  infer_instance

/-- Equality of the physical-position components of two boards: piece
bitboards, occupancy bitboards, piece list and material counters.  The
irreversible game state and the history are handled separately in the
round-trip proofs because unmake restores them wholesale from the
snapshot. -/
def ArrEq (x y : Board) : Prop :=
  x.bb_side = y.bb_side ∧ x.bb_pieces = y.bb_pieces ∧
  x.piece_list = y.piece_list ∧ x.material_count = y.material_count

theorem ArrEq.refl (x : Board) : ArrEq x x := ⟨rfl, rfl, rfl, rfl⟩

theorem ArrEq.trans {x y z : Board} (h1 : ArrEq x y) (h2 : ArrEq y z) : ArrEq x z :=
  ⟨h1.1.trans h2.1, h1.2.1.trans h2.2.1, h1.2.2.1.trans h2.2.2.1, h1.2.2.2.trans h2.2.2.2⟩

theorem withGS_arrEq (b : Board) (g : GameState) : ArrEq (withGS b g) b := ⟨rfl, rfl, rfl, rfl⟩

theorem adjust_castling_arrEq (t : Tables) (b : Board) (side square : Nat) :
    ArrEq (adjust_castling_perms_on_rook_capture t b side square) b := ⟨rfl, rfl, rfl, rfl⟩

theorem mmKingRookPerms_arrEq (t : Tables) (b : Board) (fromSq : Nat) :
    ArrEq (mmKingRookPerms t b fromSq) b := ⟨rfl, rfl, rfl, rfl⟩

/-- The arrays produced by remove_piece depend only on the arrays of the
input board. -/
theorem remove_piece_congr (t : Tables) {x y : Board} (h : ArrEq x y) (s p sq : Nat) :
    ArrEq (remove_piece t x s p sq) (remove_piece t y s p sq) := by
  obtain ⟨h1, h2, h3, h4⟩ := h
  exact ⟨by simp [remove_piece, h1], by simp [remove_piece, h2],
         by simp [remove_piece, h3], by simp [remove_piece, h4]⟩

/-- The arrays produced by put_piece depend only on the arrays of the
input board. -/
theorem put_piece_congr (t : Tables) {x y : Board} (h : ArrEq x y) (s p sq : Nat) :
    ArrEq (put_piece t x s p sq) (put_piece t y s p sq) := by
  obtain ⟨h1, h2, h3, h4⟩ := h
  exact ⟨by simp [put_piece, h1], by simp [put_piece, h2],
         by simp [put_piece, h3], by simp [put_piece, h4]⟩

section Projections

@[simp] theorem remove_piece_bb_side (t : Tables) (b : Board) (s p sq : Nat) :
    (remove_piece t b s p sq).bb_side = upd2 b.bb_side s p (b.bb_side s p ^^^ bbSquare sq) := rfl
@[simp] theorem remove_piece_bb_pieces (t : Tables) (b : Board) (s p sq : Nat) :
    (remove_piece t b s p sq).bb_pieces =
      Function.update b.bb_pieces s (b.bb_pieces s ^^^ bbSquare sq) := rfl
@[simp] theorem remove_piece_piece_list (t : Tables) (b : Board) (s p sq : Nat) :
    (remove_piece t b s p sq).piece_list = Function.update b.piece_list sq PNONE := rfl
@[simp] theorem remove_piece_material (t : Tables) (b : Board) (s p sq : Nat) :
    (remove_piece t b s p sq).material_count =
      Function.update b.material_count s (subU16 (b.material_count s) (t.piece_values p)) := rfl
@[simp] theorem remove_piece_history (t : Tables) (b : Board) (s p sq : Nat) :
    (remove_piece t b s p sq).history = b.history := rfl

@[simp] theorem put_piece_bb_side (t : Tables) (b : Board) (s p sq : Nat) :
    (put_piece t b s p sq).bb_side = upd2 b.bb_side s p (b.bb_side s p ||| bbSquare sq) := rfl
@[simp] theorem put_piece_bb_pieces (t : Tables) (b : Board) (s p sq : Nat) :
    (put_piece t b s p sq).bb_pieces =
      Function.update b.bb_pieces s (b.bb_pieces s ||| bbSquare sq) := rfl
@[simp] theorem put_piece_piece_list (t : Tables) (b : Board) (s p sq : Nat) :
    (put_piece t b s p sq).piece_list = Function.update b.piece_list sq p := rfl
@[simp] theorem put_piece_material (t : Tables) (b : Board) (s p sq : Nat) :
    (put_piece t b s p sq).material_count =
      Function.update b.material_count s (addU16 (b.material_count s) (t.piece_values p)) := rfl
@[simp] theorem put_piece_history (t : Tables) (b : Board) (s p sq : Nat) :
    (put_piece t b s p sq).history = b.history := rfl

end Projections

/-- Putting a piece right after removing the same piece from the same
square restores the physical position, provided the piece was really
there and the u16 material counter is in range. -/
theorem remove_then_put_arrEq (t : Tables) (b : Board) (s p sq : Nat)
    (hpl : b.piece_list sq = p)
    (hbs : (b.bb_side s p).testBit sq = true)
    (hbp : (b.bb_pieces s).testBit sq = true)
    (hm : b.material_count s < 65536) :
    ArrEq (put_piece t (remove_piece t b s p sq) s p sq) b := by
  refine ⟨?_, ?_, ?_, ?_⟩
  · simp only [put_piece_bb_side, remove_piece_bb_side, upd2_idem, upd2_apply_same]
    rw [xor_lor_cancel hbs]
    exact upd2_eq_self _ _ _
  · simp only [put_piece_bb_pieces, remove_piece_bb_pieces, Function.update_idem,
      Function.update_same]
    rw [xor_lor_cancel hbp]
    exact Function.update_eq_self _ _
  · simp only [put_piece_piece_list, remove_piece_piece_list, Function.update_idem]
    rw [← hpl]
    exact Function.update_eq_self _ _
  · simp only [put_piece_material, remove_piece_material, Function.update_idem,
      Function.update_same]
    rw [addU16_subU16 _ hm]
    exact Function.update_eq_self _ _

/-- Removing a piece right after putting it restores the physical
position, provided the square was empty and the u16 material counter is
in range (the ArrEq counterpart of put_then_remove_piece_eq, used inside
the make and unmake round trip). -/
theorem put_then_remove_arrEq (t : Tables) (b : Board) (s p sq : Nat)
    (hpl : b.piece_list sq = PNONE)
    (hbs : (b.bb_side s p).testBit sq = false)
    (hbp : (b.bb_pieces s).testBit sq = false)
    (hm : b.material_count s < 65536) :
    ArrEq (remove_piece t (put_piece t b s p sq) s p sq) b := by
  refine ⟨?_, ?_, ?_, ?_⟩
  · simp only [put_piece_bb_side, remove_piece_bb_side, upd2_idem, upd2_apply_same]
    rw [lor_xor_cancel hbs]
    exact upd2_eq_self _ _ _
  · simp only [put_piece_bb_pieces, remove_piece_bb_pieces, Function.update_idem,
      Function.update_same]
    rw [lor_xor_cancel hbp]
    exact Function.update_eq_self _ _
  · simp only [put_piece_piece_list, remove_piece_piece_list, Function.update_idem]
    rw [← hpl]
    exact Function.update_eq_self _ _
  · simp only [put_piece_material, remove_piece_material, Function.update_idem,
      Function.update_same]
    rw [subU16_addU16 _ hm]
    exact Function.update_eq_self _ _
section RoundTripInfrastructure

theorem xor_one_ne (n : Nat) : n ^^^ 1 ≠ n := by
  intro h
  have := congrArg (fun x => x.testBit 0) h
  simp only [Nat.testBit_xor] at this
  revert this
  cases n.testBit 0 <;> decide

theorem ne_xor_one (n : Nat) : n ≠ n ^^^ 1 := fun h => xor_one_ne n h.symm

theorem withHistory_arrEq (b : Board) (l : List UnMakeInfo) : ArrEq (withHistory b l) b :=
  ⟨rfl, rfl, rfl, rfl⟩

theorem ArrEq.withGS_left {x z : Board} (g : GameState) (h : ArrEq x z) :
    ArrEq (withGS x g) z := (withGS_arrEq x g).trans h

theorem ArrEq.ite_withGS {c : Prop} [Decidable c] {x z : Board} (g : GameState)
    (h : ArrEq x z) : ArrEq (if c then withGS x g else x) z := by
  split
  · exact (withGS_arrEq x g).trans h
  · exact h

theorem ArrEq.ite_perms {c : Prop} [Decidable c] {x z : Board} (t : Tables) (f : Nat)
    (h : ArrEq x z) : ArrEq (if c then mmKingRookPerms t x f else x) z := by
  split
  · exact (mmKingRookPerms_arrEq t x f).trans h
  · exact h

theorem arrEq_ite_both {c : Prop} [Decidable c] {x y z : Board}
    (h1 : ArrEq x z) (h2 : ArrEq y z) : ArrEq (if c then x else y) z := by
  split
  · exact h1
  · exact h2

/-- None of the mutation steps of make touches the history once the
snapshot is pushed. -/
theorem mmCastle_history (t : Tables) (b : Board) (us toSq : Nat) :
    (mmCastle t b us toSq).history = b.history := by
  simp only [mmCastle]
  split_ifs <;> rfl

theorem umCastle_history (t : Tables) (b : Board) (us toSq : Nat) :
    (umCastle t b us toSq).history = b.history := by
  simp only [umCastle]
  split_ifs <;> rfl

theorem adjust_castling_history (t : Tables) (b : Board) (side square : Nat) :
    (adjust_castling_perms_on_rook_capture t b side square).history = b.history := rfl

theorem mmKingRookPerms_history (t : Tables) (b : Board) (fromSq : Nat) :
    (mmKingRookPerms t b fromSq).history = b.history := rfl

theorem mmCapture_history (t : Tables) (us : Nat) (m : Move) (b : Board) :
    (mmCapture t us m b).history = b.history := by
  simp only [mmCapture]
  split_ifs <;> rfl

theorem mmMovePiece_history (t : Tables) (us : Nat) (m : Move) (b : Board) :
    (mmMovePiece t us m b).history = b.history := by
  simp only [mmMovePiece]
  split_ifs <;> rfl

theorem mmCastleStep_history (t : Tables) (us : Nat) (m : Move) (b : Board) :
    (mmCastleStep t us m b).history = b.history := by
  simp only [mmCastleStep]
  split_ifs with h
  · exact mmCastle_history t b us m.toSq
  · rfl

theorem mmEpStep_history (t : Tables) (us : Nat) (m : Move) (b : Board) :
    (mmEpStep t us m b).history = b.history := by
  simp only [mmEpStep]
  split_ifs <;> rfl

theorem mmPermsStep_history (t : Tables) (m : Move) (b : Board) :
    (mmPermsStep t m b).history = b.history := by
  simp only [mmPermsStep]
  split_ifs <;> rfl

theorem mmClearEp_history (t : Tables) (b : Board) :
    (mmClearEp t b).history = b.history := by
  simp only [mmClearEp]
  split_ifs <;> rfl

theorem mmDoubleStep_history (t : Tables) (us : Nat) (m : Move) (b : Board) :
    (mmDoubleStep t us m b).history = b.history := by
  simp only [mmDoubleStep]
  split_ifs <;> rfl

theorem mmSwapSide_history (t : Tables) (us : Nat) (b : Board) :
    (mmSwapSide t us b).history = b.history := rfl

theorem mmClock_history (m : Move) (b : Board) :
    (mmClock m b).history = b.history := rfl

theorem mmFullmove_history (us : Nat) (b : Board) :
    (mmFullmove us b).history = b.history := by
  simp only [mmFullmove]
  split_ifs <;> rfl

theorem make_move_applied_history (t : Tables) (b : Board) (m : Move) :
    (make_move_applied t b m).history = b.history ++ [snapshotOf b m] := by
  simp only [make_move_applied, mmFullmove_history, mmClock_history, mmSwapSide_history,
    mmDoubleStep_history, mmClearEp_history, mmPermsStep_history, mmEpStep_history,
    mmCastleStep_history, mmMovePiece_history, mmCapture_history, withHistory_history]

theorem umEpStep_history (t : Tables) (us : Nat) (m : Move) (b : Board) :
    (umEpStep t us m b).history = b.history := by
  simp only [umEpStep]
  split_ifs <;> rfl

theorem umCastleStep_history (t : Tables) (us : Nat) (m : Move) (b : Board) :
    (umCastleStep t us m b).history = b.history := by
  simp only [umCastleStep]
  split_ifs with h
  · exact umCastle_history t b us m.toSq
  · rfl

theorem umMoveBack_history (t : Tables) (us : Nat) (m : Move) (b : Board) :
    (umMoveBack t us m b).history = b.history := by
  simp only [umMoveBack]
  split_ifs <;> rfl

theorem umCaptureBack_history (t : Tables) (us : Nat) (m : Move) (b : Board) :
    (umCaptureBack t us m b).history = b.history := by
  simp only [umCaptureBack]
  split_ifs <;> rfl

theorem unmake_core_history (t : Tables) (stored : UnMakeInfo) (b : Board) :
    (unmake_core t stored b).history = b.history := by
  simp only [unmake_core, withGS_history, umCaptureBack_history, umMoveBack_history,
    umCastleStep_history, umEpStep_history]

theorem unmake_core_game_state (t : Tables) (stored : UnMakeInfo) (b : Board) :
    (unmake_core t stored b).game_state =
      { active_color := stored.active_color
        castling := stored.castling
        en_passant := stored.en_passant
        halfmove_clock := stored.halfmove_clock
        fullmove_number := stored.fullmove_number
        zobrist_key := stored.zobrist_key } := rfl

theorem unmake_move_concat (t : Tables) (B : Board) (l : List UnMakeInfo)
    (stored : UnMakeInfo) (hh : B.history = l ++ [stored]) :
    unmake_move t B = unmake_core t stored (withHistory B l) := by
  unfold unmake_move
  rw [hh, List.getLast?_concat, List.dropLast_concat]

/-- Round trip of a piece moved from f to t on a single word: clear f,
set t, clear t, set f restores the word when f was set, t clear. -/
theorem bit_move_roundtrip {B : Nat} {f s : Nat}
    (hf : B.testBit f = true) (hs : B.testBit s = false) (hne : f ≠ s) :
    (((B ^^^ bbSquare f) ||| bbSquare s) ^^^ bbSquare s) ||| bbSquare f = B := by
  have h1 : (B ^^^ bbSquare f).testBit s = false := by
    rw [testBit_xor_bbSquare_ne hne]; exact hs
  rw [lor_xor_cancel h1, xor_lor_cancel hf]

/-- An inner function update at a key is shadowed by a later update at
the same key. -/
theorem update_shadow {α : Type} (f : Nat → α) (a c : Nat) (v1 v2 v3 : α) :
    Function.update (Function.update (Function.update f a v1) c v2) a v3 =
      Function.update (Function.update f c v2) a v3 := by
  funext x
  by_cases hx : x = a
  · subst hx; simp [Function.update]
  · by_cases hc : x = c <;> simp [Function.update, hx, hc]

/-- Same shadowing for the two-index update. -/
theorem upd2_shadow (f : Nat → Nat → Nat) (s p s2 p2 : Nat) (v1 v2 v3 : Nat) :
    upd2 (upd2 (upd2 f s p v1) s2 p2 v2) s p v3 = upd2 (upd2 f s2 p2 v2) s p v3 := by
  funext a c
  by_cases hx : a = s ∧ c = p
  · simp [upd2, hx]
  · by_cases hc : a = s2 ∧ c = p2 <;> simp [upd2, hx, hc]

end RoundTripInfrastructure
section StepAlgebra

theorem ArrEq.symm {x y : Board} (h : ArrEq x y) : ArrEq y x :=
  ⟨h.1.symm, h.2.1.symm, h.2.2.1.symm, h.2.2.2.symm⟩

theorem withGS_congr {x y : Board} (g1 g2 : GameState) (h : ArrEq x y) :
    ArrEq (withGS x g1) (withGS y g2) := h

theorem remove_bb_side_other (t : Tables) (b : Board) {s p s2 p2 : Nat} (sq : Nat)
    (hne : ¬(s2 = s ∧ p2 = p)) :
    (remove_piece t b s p sq).bb_side s2 p2 = b.bb_side s2 p2 :=
  upd2_apply_ne _ _ _ _ _ _ hne

theorem remove_bb_side_same (t : Tables) (b : Board) (s p sq : Nat) :
    (remove_piece t b s p sq).bb_side s p = b.bb_side s p ^^^ bbSquare sq :=
  upd2_apply_same _ _ _ _

theorem put_bb_side_other (t : Tables) (b : Board) {s p s2 p2 : Nat} (sq : Nat)
    (hne : ¬(s2 = s ∧ p2 = p)) :
    (put_piece t b s p sq).bb_side s2 p2 = b.bb_side s2 p2 :=
  upd2_apply_ne _ _ _ _ _ _ hne

theorem put_bb_side_same (t : Tables) (b : Board) (s p sq : Nat) :
    (put_piece t b s p sq).bb_side s p = b.bb_side s p ||| bbSquare sq :=
  upd2_apply_same _ _ _ _

theorem remove_bb_pieces_other (t : Tables) (b : Board) {s s2 : Nat} (p sq : Nat)
    (hne : s2 ≠ s) :
    (remove_piece t b s p sq).bb_pieces s2 = b.bb_pieces s2 :=
  Function.update_noteq hne _ _

theorem put_bb_pieces_other (t : Tables) (b : Board) {s s2 : Nat} (p sq : Nat)
    (hne : s2 ≠ s) :
    (put_piece t b s p sq).bb_pieces s2 = b.bb_pieces s2 :=
  Function.update_noteq hne _ _

theorem remove_bb_pieces_same (t : Tables) (b : Board) (s p sq : Nat) :
    (remove_piece t b s p sq).bb_pieces s = b.bb_pieces s ^^^ bbSquare sq :=
  Function.update_same _ _ _

theorem put_bb_pieces_same (t : Tables) (b : Board) (s p sq : Nat) :
    (put_piece t b s p sq).bb_pieces s = b.bb_pieces s ||| bbSquare sq :=
  Function.update_same _ _ _

theorem remove_piece_list_other (t : Tables) (b : Board) {sq sq2 : Nat} (s p : Nat)
    (hne : sq2 ≠ sq) :
    (remove_piece t b s p sq).piece_list sq2 = b.piece_list sq2 :=
  Function.update_noteq hne _ _

theorem put_piece_list_other (t : Tables) (b : Board) {sq sq2 : Nat} (s p : Nat)
    (hne : sq2 ≠ sq) :
    (put_piece t b s p sq).piece_list sq2 = b.piece_list sq2 :=
  Function.update_noteq hne _ _

theorem remove_piece_list_same (t : Tables) (b : Board) (s p sq : Nat) :
    (remove_piece t b s p sq).piece_list sq = PNONE :=
  Function.update_same _ _ _

theorem remove_material_other (t : Tables) (b : Board) {s s2 : Nat} (p sq : Nat)
    (hne : s2 ≠ s) :
    (remove_piece t b s p sq).material_count s2 = b.material_count s2 :=
  Function.update_noteq hne _ _

theorem put_material_other (t : Tables) (b : Board) {s s2 : Nat} (p sq : Nat)
    (hne : s2 ≠ s) :
    (put_piece t b s p sq).material_count s2 = b.material_count s2 :=
  Function.update_noteq hne _ _

theorem remove_material_lt (t : Tables) (b : Board) (s p sq : Nat) :
    (remove_piece t b s p sq).material_count s < 65536 := by
  rw [remove_piece_material, Function.update_same]
  exact subU16_lt _ _

theorem put_material_lt (t : Tables) (b : Board) (s p sq : Nat) :
    (put_piece t b s p sq).material_count s < 65536 := by
  rw [put_piece_material, Function.update_same]
  exact addU16_lt _ _

/- Positive and negative unfoldings of the conditional steps. -/

theorem mmCapture_neg (t : Tables) (us : Nat) (m : Move) (b : Board)
    (h : m.captured = PNONE) : mmCapture t us m b = b := by
  simp [mmCapture, h]

theorem mmCastleStep_neg (t : Tables) (us : Nat) (m : Move) (b : Board)
    (h : m.castling = false) : mmCastleStep t us m b = b := by
  simp [mmCastleStep, h]

theorem mmCastleStep_pos (t : Tables) (us : Nat) (m : Move) (b : Board)
    (h : m.castling = true) : mmCastleStep t us m b = mmCastle t b us m.toSq := by
  simp [mmCastleStep, h]

theorem mmEpStep_neg (t : Tables) (us : Nat) (m : Move) (b : Board)
    (h : m.en_passant = false) : mmEpStep t us m b = b := by
  simp [mmEpStep, h]

theorem mmEpStep_pos (t : Tables) (us : Nat) (m : Move) (b : Board)
    (h : m.en_passant = true) :
    mmEpStep t us m b =
      remove_piece t b (us ^^^ 1) PAWN (if us = WHITE then m.toSq - 8 else m.toSq + 8) := by
  simp only [mmEpStep, h, if_true]

theorem umEpStep_neg (t : Tables) (us : Nat) (m : Move) (b : Board)
    (h : m.en_passant = false) : umEpStep t us m b = b := by
  simp [umEpStep, h]

theorem umEpStep_pos (t : Tables) (us : Nat) (m : Move) (b : Board)
    (h : m.en_passant = true) :
    umEpStep t us m b =
      put_piece t b (us ^^^ 1) PAWN (if us = WHITE then m.toSq - 8 else m.toSq + 8) := by
  simp only [umEpStep, h, if_true]

theorem umCastleStep_neg (t : Tables) (us : Nat) (m : Move) (b : Board)
    (h : m.castling = false) : umCastleStep t us m b = b := by
  simp [umCastleStep, h]

theorem umCastleStep_pos (t : Tables) (us : Nat) (m : Move) (b : Board)
    (h : m.castling = true) : umCastleStep t us m b = umCastle t b us m.toSq := by
  simp [umCastleStep, h]

theorem umCaptureBack_neg (t : Tables) (us : Nat) (m : Move) (b : Board)
    (h : m.captured = PNONE) : umCaptureBack t us m b = b := by
  simp [umCaptureBack, h]

theorem umCaptureBack_pos (t : Tables) (us : Nat) (m : Move) (b : Board)
    (h : m.captured ≠ PNONE) :
    umCaptureBack t us m b = put_piece t b (us ^^^ 1) m.captured m.toSq := by
  simp [umCaptureBack, h]

theorem mmMovePiece_promo (t : Tables) (us : Nat) (m : Move) (b : Board)
    (h : m.promoted ≠ PNONE) :
    mmMovePiece t us m b =
      put_piece t (remove_piece t b us m.piece m.fromSq) us m.promoted m.toSq := by
  simp [mmMovePiece, h]

theorem mmMovePiece_nonpromo (t : Tables) (us : Nat) (m : Move) (b : Board)
    (h : m.promoted = PNONE) :
    mmMovePiece t us m b =
      put_piece t (remove_piece t b us m.piece m.fromSq) us m.piece m.toSq := by
  simp [mmMovePiece, h]

theorem umMoveBack_promo (t : Tables) (us : Nat) (m : Move) (b : Board)
    (h : m.promoted ≠ PNONE) :
    umMoveBack t us m b =
      put_piece t (remove_piece t b us m.promoted m.toSq) us PAWN m.fromSq := by
  simp [umMoveBack, h]

theorem umMoveBack_nonpromo (t : Tables) (us : Nat) (m : Move) (b : Board)
    (h : m.promoted = PNONE) :
    umMoveBack t us m b =
      put_piece t (remove_piece t b us m.piece m.toSq) us m.piece m.fromSq := by
  simp [umMoveBack, h]

/- Congruence of the steps with respect to the physical position. -/

theorem mmMovePiece_congr (t : Tables) (us : Nat) (m : Move) {x y : Board}
    (h : ArrEq x y) : ArrEq (mmMovePiece t us m x) (mmMovePiece t us m y) := by
  simp only [mmMovePiece]
  split_ifs <;> exact put_piece_congr t (remove_piece_congr t h _ _ _) _ _ _

theorem umMoveBack_congr (t : Tables) (us : Nat) (m : Move) {x y : Board}
    (h : ArrEq x y) : ArrEq (umMoveBack t us m x) (umMoveBack t us m y) := by
  simp only [umMoveBack]
  split_ifs <;> exact put_piece_congr t (remove_piece_congr t h _ _ _) _ _ _

theorem umCaptureBack_congr (t : Tables) (us : Nat) (m : Move) {x y : Board}
    (h : ArrEq x y) : ArrEq (umCaptureBack t us m x) (umCaptureBack t us m y) := by
  simp only [umCaptureBack]
  split_ifs
  all_goals first
    | exact put_piece_congr t h _ _ _
    | exact h

theorem umEpStep_congr (t : Tables) (us : Nat) (m : Move) {x y : Board}
    (h : ArrEq x y) : ArrEq (umEpStep t us m x) (umEpStep t us m y) := by
  simp only [umEpStep]
  split_ifs
  all_goals first
    | exact put_piece_congr t h _ _ _
    | exact h

theorem mmEpStep_congr (t : Tables) (us : Nat) (m : Move) {x y : Board}
    (h : ArrEq x y) : ArrEq (mmEpStep t us m x) (mmEpStep t us m y) := by
  simp only [mmEpStep]
  split_ifs
  all_goals first
    | exact remove_piece_congr t h _ _ _
    | exact h

theorem mmCapture_congr (t : Tables) (us : Nat) (m : Move) {x y : Board}
    (h : ArrEq x y) : ArrEq (mmCapture t us m x) (mmCapture t us m y) := by
  simp only [mmCapture]
  split_ifs
  all_goals first
    | exact (adjust_castling_arrEq _ _ _ _).trans
        ((remove_piece_congr t h _ _ _).trans (adjust_castling_arrEq _ _ _ _).symm)
    | exact remove_piece_congr t h _ _ _
    | exact h

theorem mmCastle_congr (t : Tables) (us toSq : Nat) {x y : Board}
    (h : ArrEq x y) : ArrEq (mmCastle t x us toSq) (mmCastle t y us toSq) := by
  obtain ⟨h1, h2, h3, h4⟩ := h
  refine ⟨?_, ?_, ?_, ?_⟩
  · simp only [mmCastle, withGS_bb_side, apply_ite Board.bb_side, put_piece_bb_side,
      remove_piece_bb_side, h1]
  · simp only [mmCastle, withGS_bb_pieces, apply_ite Board.bb_pieces, put_piece_bb_pieces,
      remove_piece_bb_pieces, h2]
  · simp only [mmCastle, withGS_piece_list, apply_ite Board.piece_list, put_piece_piece_list,
      remove_piece_piece_list, h3]
  · simp only [mmCastle, withGS_material, apply_ite Board.material_count, put_piece_material,
      remove_piece_material, h4]

theorem mmCastleStep_congr (t : Tables) (us : Nat) (m : Move) {x y : Board}
    (h : ArrEq x y) : ArrEq (mmCastleStep t us m x) (mmCastleStep t us m y) := by
  simp only [mmCastleStep]
  split_ifs
  · exact mmCastle_congr t us m.toSq h
  · exact h

theorem condPutRemove_congr (t : Tables) (us f s2 : Nat) {c : Prop} [Decidable c]
    {x y : Board} (h : ArrEq x y) :
    ArrEq (if c then put_piece t (remove_piece t x us ROOK f) us ROOK s2 else x)
          (if c then put_piece t (remove_piece t y us ROOK f) us ROOK s2 else y) := by
  split_ifs
  · exact put_piece_congr t (remove_piece_congr t h _ _ _) _ _ _
  · exact h

theorem umCastle_congr (t : Tables) (us toSq : Nat) {x y : Board}
    (h : ArrEq x y) : ArrEq (umCastle t x us toSq) (umCastle t y us toSq) := by
  simp only [umCastle]
  exact condPutRemove_congr t us _ _ (condPutRemove_congr t us _ _
    (condPutRemove_congr t us _ _ (condPutRemove_congr t us _ _ h)))

theorem umCastleStep_congr (t : Tables) (us : Nat) (m : Move) {x y : Board}
    (h : ArrEq x y) : ArrEq (umCastleStep t us m x) (umCastleStep t us m y) := by
  simp only [umCastleStep]
  split_ifs
  · exact umCastle_congr t us m.toSq h
  · exact h

/- Transparency of the game-state-only steps. -/

theorem mmPermsStep_arrEq (t : Tables) (m : Move) (b : Board) :
    ArrEq (mmPermsStep t m b) b := by
  simp only [mmPermsStep]
  split_ifs
  · exact mmKingRookPerms_arrEq t b m.fromSq
  · exact ArrEq.refl b

theorem mmClearEp_arrEq (t : Tables) (b : Board) : ArrEq (mmClearEp t b) b := by
  simp only [mmClearEp]
  split_ifs
  · exact withGS_arrEq _ _
  · exact ArrEq.refl b

theorem mmDoubleStep_arrEq (t : Tables) (us : Nat) (m : Move) (b : Board) :
    ArrEq (mmDoubleStep t us m b) b := by
  simp only [mmDoubleStep]
  split_ifs
  all_goals try exact ArrEq.refl b
  all_goals exact withGS_arrEq _ _

theorem mmSwapSide_arrEq (t : Tables) (us : Nat) (b : Board) :
    ArrEq (mmSwapSide t us b) b := withGS_arrEq _ _

theorem mmClock_arrEq (m : Move) (b : Board) : ArrEq (mmClock m b) b := withGS_arrEq _ _

theorem mmFullmove_arrEq (us : Nat) (b : Board) : ArrEq (mmFullmove us b) b := by
  simp only [mmFullmove]
  split_ifs
  · exact withGS_arrEq _ _
  · exact ArrEq.refl b

/-- Up to the physical position, make_move_applied is the capture
removal, the piece move, the castling rook relocation and the en-passant
pawn removal; all other steps only touch the irreversible state. -/
theorem make_applied_arrEq (t : Tables) (b : Board) (m : Move) :
    ArrEq (make_move_applied t b m)
      (mmEpStep t b.game_state.active_color m
        (mmCastleStep t b.game_state.active_color m
          (mmMovePiece t b.game_state.active_color m
            (mmCapture t b.game_state.active_color m b)))) := by
  simp only [make_move_applied]
  refine (mmFullmove_arrEq _ _).trans ((mmClock_arrEq _ _).trans
    ((mmSwapSide_arrEq _ _ _).trans ((mmDoubleStep_arrEq _ _ _ _).trans
      ((mmClearEp_arrEq _ _).trans ((mmPermsStep_arrEq _ _ _).trans ?_)))))
  exact mmEpStep_congr _ _ _ (mmCastleStep_congr _ _ _
    (mmMovePiece_congr _ _ _ (mmCapture_congr _ _ _ (withHistory_arrEq _ _))))

theorem unmake_core_arrEq (t : Tables) (stored : UnMakeInfo) (b : Board) :
    ArrEq (unmake_core t stored b)
      (umCaptureBack t stored.active_color stored.this_move
        (umMoveBack t stored.active_color stored.this_move
          (umCastleStep t stored.active_color stored.this_move
            (umEpStep t stored.active_color stored.this_move b)))) := by
  simp only [unmake_core]
  exact withGS_arrEq _ _

end StepAlgebra
section RoundTrip

/-- Undoing the piece-move step restores the physical position: the
conditions are those of a pseudo-legal move at the board x the step is
applied to. -/
theorem move_roundtrip_arrEq (t : Tables) (us : Nat) (m : Move) (x : Board)
    (hft : m.fromSq ≠ m.toSq)
    (hpl : x.piece_list m.fromSq = m.piece)
    (hbs : (x.bb_side us m.piece).testBit m.fromSq = true)
    (hbp : (x.bb_pieces us).testBit m.fromSq = true)
    (hplto : x.piece_list m.toSq = PNONE)
    (hbsto : (x.bb_side us (if m.promoted ≠ PNONE then m.promoted else m.piece)).testBit
        m.toSq = false)
    (hbpto : (x.bb_pieces us).testBit m.toSq = false)
    (hm : x.material_count us < 65536)
    (hpromo : m.promoted ≠ PNONE → m.piece = PAWN ∧ m.promoted ≠ PAWN) :
    ArrEq (umMoveBack t us m (mmMovePiece t us m x)) x := by
  by_cases hp : m.promoted = PNONE
  · rw [mmMovePiece_nonpromo t us m x hp, umMoveBack_nonpromo t us m _ hp]
    rw [if_neg (fun hc => hc hp)] at hbsto
    have hXpl : (remove_piece t x us m.piece m.fromSq).piece_list m.toSq = PNONE := by
      rw [remove_piece_list_other t x us m.piece (Ne.symm hft)]
      exact hplto
    have hXbs : ((remove_piece t x us m.piece m.fromSq).bb_side us m.piece).testBit
        m.toSq = false := by
      rw [remove_bb_side_same, testBit_xor_bbSquare_ne hft]
      exact hbsto
    have hXbp : ((remove_piece t x us m.piece m.fromSq).bb_pieces us).testBit
        m.toSq = false := by
      rw [remove_bb_pieces_same, testBit_xor_bbSquare_ne hft]
      exact hbpto
    refine (put_piece_congr t
      (put_then_remove_arrEq t _ us m.piece m.toSq hXpl hXbs hXbp
        (remove_material_lt t x us m.piece m.fromSq)) _ _ _).trans ?_
    exact remove_then_put_arrEq t x us m.piece m.fromSq hpl hbs hbp hm
  · obtain ⟨hP, hprne⟩ := hpromo hp
    rw [mmMovePiece_promo t us m x hp, umMoveBack_promo t us m _ hp]
    rw [if_pos hp] at hbsto
    rw [hP] at hpl hbs ⊢
    have hXpl : (remove_piece t x us PAWN m.fromSq).piece_list m.toSq = PNONE := by
      rw [remove_piece_list_other t x us PAWN (Ne.symm hft)]
      exact hplto
    have hXbs : ((remove_piece t x us PAWN m.fromSq).bb_side us m.promoted).testBit
        m.toSq = false := by
      rw [remove_bb_side_other t x m.fromSq (fun hc => hprne hc.2)]
      exact hbsto
    have hXbp : ((remove_piece t x us PAWN m.fromSq).bb_pieces us).testBit
        m.toSq = false := by
      rw [remove_bb_pieces_same, testBit_xor_bbSquare_ne hft]
      exact hbpto
    refine (put_piece_congr t
      (put_then_remove_arrEq t _ us m.promoted m.toSq hXpl hXbs hXbp
        (remove_material_lt t x us PAWN m.fromSq)) _ _ _).trans ?_
    exact remove_then_put_arrEq t x us PAWN m.fromSq hpl hbs hbp hm

/-- The capture-removal step, up to the physical position, is just the
removal of the captured piece from the target square. -/
theorem mmCapture_pos_arrEq (t : Tables) (us : Nat) (m : Move) (x : Board)
    (hcap : m.captured ≠ PNONE) :
    ArrEq (mmCapture t us m x) (remove_piece t x (us ^^^ 1) m.captured m.toSq) := by
  simp only [mmCapture, if_pos hcap]
  split_ifs
  · exact adjust_castling_arrEq _ _ _ _
  · exact ArrEq.refl _

end RoundTrip
section CastleLemmas

/-- Moving a piece from f to s2 and back restores the physical position. -/
theorem movePair_roundtrip_arrEq (t : Tables) (x : Board) (us p f s2 : Nat) (hne : f ≠ s2)
    (hplf : x.piece_list f = p)
    (hbsf : (x.bb_side us p).testBit f = true)
    (hbpf : (x.bb_pieces us).testBit f = true)
    (hplt : x.piece_list s2 = PNONE)
    (hbst : (x.bb_side us p).testBit s2 = false)
    (hbpt : (x.bb_pieces us).testBit s2 = false)
    (hm : x.material_count us < 65536) :
    ArrEq (put_piece t (remove_piece t
      (put_piece t (remove_piece t x us p f) us p s2) us p s2) us p f) x := by
  have hXpl : (remove_piece t x us p f).piece_list s2 = PNONE := by
    rw [remove_piece_list_other t x us p (Ne.symm hne)]
    exact hplt
  have hXbs : ((remove_piece t x us p f).bb_side us p).testBit s2 = false := by
    rw [remove_bb_side_same, testBit_xor_bbSquare_ne hne]
    exact hbst
  have hXbp : ((remove_piece t x us p f).bb_pieces us).testBit s2 = false := by
    rw [remove_bb_pieces_same, testBit_xor_bbSquare_ne hne]
    exact hbpt
  refine (put_piece_congr t
    (put_then_remove_arrEq t _ us p s2 hXpl hXbs hXbp
      (remove_material_lt t x us p f)) _ _ _).trans ?_
  exact remove_then_put_arrEq t x us p f hplf hbsf hbpf hm

theorem mmCastle_arrEq_G1 (t : Tables) (us : Nat) (Y : Board) :
    ArrEq (mmCastle t Y us G1) (put_piece t (remove_piece t Y us ROOK H1) us ROOK F1) := by
  simp only [mmCastle, eq_self_iff_true, if_true,
    show (G1 = C1) = False from eq_false (by decide),
    show (G1 = G8) = False from eq_false (by decide),
    show (G1 = C8) = False from eq_false (by decide), if_false]
  exact (withGS_arrEq _ _).trans ((withGS_arrEq _ _).trans
    (put_piece_congr t (remove_piece_congr t (withGS_arrEq Y _) _ _ _) _ _ _))

theorem mmCastle_arrEq_C1 (t : Tables) (us : Nat) (Y : Board) :
    ArrEq (mmCastle t Y us C1) (put_piece t (remove_piece t Y us ROOK A1) us ROOK D1) := by
  simp only [mmCastle, eq_self_iff_true, if_true,
    show (C1 = G1) = False from eq_false (by decide),
    show (C1 = G8) = False from eq_false (by decide),
    show (C1 = C8) = False from eq_false (by decide), if_false]
  exact (withGS_arrEq _ _).trans ((withGS_arrEq _ _).trans
    (put_piece_congr t (remove_piece_congr t (withGS_arrEq Y _) _ _ _) _ _ _))

theorem mmCastle_arrEq_G8 (t : Tables) (us : Nat) (Y : Board) :
    ArrEq (mmCastle t Y us G8) (put_piece t (remove_piece t Y us ROOK H8) us ROOK F8) := by
  simp only [mmCastle, eq_self_iff_true, if_true,
    show (G8 = G1) = False from eq_false (by decide),
    show (G8 = C1) = False from eq_false (by decide),
    show (G8 = C8) = False from eq_false (by decide), if_false]
  exact (withGS_arrEq _ _).trans ((withGS_arrEq _ _).trans
    (put_piece_congr t (remove_piece_congr t (withGS_arrEq Y _) _ _ _) _ _ _))

theorem mmCastle_arrEq_C8 (t : Tables) (us : Nat) (Y : Board) :
    ArrEq (mmCastle t Y us C8) (put_piece t (remove_piece t Y us ROOK A8) us ROOK D8) := by
  simp only [mmCastle, eq_self_iff_true, if_true,
    show (C8 = G1) = False from eq_false (by decide),
    show (C8 = C1) = False from eq_false (by decide),
    show (C8 = G8) = False from eq_false (by decide), if_false]
  exact (withGS_arrEq _ _).trans ((withGS_arrEq _ _).trans
    (put_piece_congr t (remove_piece_congr t (withGS_arrEq Y _) _ _ _) _ _ _))

theorem umCastle_eq_G1 (t : Tables) (us : Nat) (y : Board) :
    umCastle t y us G1 = put_piece t (remove_piece t y us ROOK F1) us ROOK H1 := by
  simp only [umCastle, eq_self_iff_true, if_true,
    show (G1 = C1) = False from eq_false (by decide),
    show (G1 = G8) = False from eq_false (by decide),
    show (G1 = C8) = False from eq_false (by decide), if_false]

theorem umCastle_eq_C1 (t : Tables) (us : Nat) (y : Board) :
    umCastle t y us C1 = put_piece t (remove_piece t y us ROOK D1) us ROOK A1 := by
  simp only [umCastle, eq_self_iff_true, if_true,
    show (C1 = G1) = False from eq_false (by decide),
    show (C1 = G8) = False from eq_false (by decide),
    show (C1 = C8) = False from eq_false (by decide), if_false]

theorem umCastle_eq_G8 (t : Tables) (us : Nat) (y : Board) :
    umCastle t y us G8 = put_piece t (remove_piece t y us ROOK F8) us ROOK H8 := by
  simp only [umCastle, eq_self_iff_true, if_true,
    show (G8 = G1) = False from eq_false (by decide),
    show (G8 = C1) = False from eq_false (by decide),
    show (G8 = C8) = False from eq_false (by decide), if_false]

theorem umCastle_eq_C8 (t : Tables) (us : Nat) (y : Board) :
    umCastle t y us C8 = put_piece t (remove_piece t y us ROOK D8) us ROOK A8 := by
  simp only [umCastle, eq_self_iff_true, if_true,
    show (C8 = G1) = False from eq_false (by decide),
    show (C8 = C1) = False from eq_false (by decide),
    show (C8 = G8) = False from eq_false (by decide), if_false]

end CastleLemmas
@[simp] theorem snapshotOf_active_color (b : Board) (m : Move) :
    (snapshotOf b m).active_color = b.game_state.active_color := rfl

@[simp] theorem snapshotOf_this_move (b : Board) (m : Move) :
    (snapshotOf b m).this_move = m := rfl

/-- The physical-position round trip of an entire castling move: king
from kf to kt, rook from rf to rt, both reversed. -/
theorem castle_case_arrEq (t : Tables) (us : Nat) (b : Board) (kf kt rf rt : Nat)
    (hkfkt : kf ≠ kt) (hrfrt : rf ≠ rt)
    (hrfkf : rf ≠ kf) (hrfkt : rf ≠ kt) (hrtkf : rt ≠ kf) (hrtkt : rt ≠ kt)
    (hplf : b.piece_list kf = KING)
    (hbsf : (b.bb_side us KING).testBit kf = true)
    (hbpf : (b.bb_pieces us).testBit kf = true)
    (hplto : b.piece_list kt = PNONE)
    (hbst : (b.bb_side us KING).testBit kt = false)
    (hbpt : (b.bb_pieces us).testBit kt = false)
    (hrk : rookOkAt b us rf rt)
    (hm : b.material_count us < 65536) :
    ArrEq (put_piece t (remove_piece t
        (put_piece t (remove_piece t
          (put_piece t (remove_piece t
            (put_piece t (remove_piece t b us KING kf) us KING kt)
            us ROOK rf) us ROOK rt)
          us ROOK rt) us ROOK rf)
        us KING kt) us KING kf) b := by
  obtain ⟨hplrf, hbsrf, hbprf, hplrt, hbsrt, hbprt⟩ := hrk
  have hRK : ¬(us = us ∧ (ROOK : Nat) = KING) := fun hcc => absurd hcc.2 (by decide)
  have hYbs : (put_piece t (remove_piece t b us KING kf) us KING kt).bb_side us ROOK
      = b.bb_side us ROOK := by
    rw [put_bb_side_other t _ kt hRK, remove_bb_side_other t b kf hRK]
  have hYbp : (put_piece t (remove_piece t b us KING kf) us KING kt).bb_pieces us
      = (b.bb_pieces us ^^^ bbSquare kf) ||| bbSquare kt := by
    rw [put_bb_pieces_same, remove_bb_pieces_same]
  have hYplrf : (put_piece t (remove_piece t b us KING kf) us KING kt).piece_list rf
      = ROOK := by
    rw [put_piece_list_other t _ us KING hrfkt, remove_piece_list_other t b us KING hrfkf]
    exact hplrf
  have hYplrt : (put_piece t (remove_piece t b us KING kf) us KING kt).piece_list rt
      = PNONE := by
    rw [put_piece_list_other t _ us KING hrtkt, remove_piece_list_other t b us KING hrtkf]
    exact hplrt
  have hYbsrf : ((put_piece t (remove_piece t b us KING kf) us KING kt).bb_side us
      ROOK).testBit rf = true := by rw [hYbs]; exact hbsrf
  have hYbsrt : ((put_piece t (remove_piece t b us KING kf) us KING kt).bb_side us
      ROOK).testBit rt = false := by rw [hYbs]; exact hbsrt
  have hYbprf : ((put_piece t (remove_piece t b us KING kf) us KING kt).bb_pieces
      us).testBit rf = true := by
    rw [hYbp, testBit_lor_bbSquare_ne (Ne.symm hrfkt), testBit_xor_bbSquare_ne
      (Ne.symm hrfkf)]
    exact hbprf
  have hYbprt : ((put_piece t (remove_piece t b us KING kf) us KING kt).bb_pieces
      us).testBit rt = false := by
    rw [hYbp, testBit_lor_bbSquare_ne (Ne.symm hrtkt), testBit_xor_bbSquare_ne
      (Ne.symm hrtkf)]
    exact hbprt
  refine (put_piece_congr t (remove_piece_congr t
    (movePair_roundtrip_arrEq t _ us ROOK rf rt hrfrt hYplrf hYbsrf hYbprf hYplrt hYbsrt
      hYbprt (put_material_lt t _ us KING kt)) _ _ _) _ _ _).trans ?_
  exact movePair_roundtrip_arrEq t b us KING kf kt hkfkt hplf hbsf hbpf hplto hbst hbpt hm

/--
Core round trip: undoing an applied pseudo-legal move restores the board
exactly, in every component.
-/
theorem unmake_make_applied (t : Tables) (b : Board) (m : Move) (h : makeOk b m) :
    unmake_move t (make_move_applied t b m) = b := by
  obtain ⟨hft, hplf, hbsf, hbpf, hbpt, hbst, hcapY, hcapN, hpromo, hcastle, hep, hmus,
    hmopp⟩ := h
  rw [unmake_move_concat t _ b.history (snapshotOf b m) (make_move_applied_history t b m)]
  have husopp : ¬(b.game_state.active_color = b.game_state.active_color ^^^ 1) :=
    ne_xor_one _
  have harr : ArrEq (unmake_core t (snapshotOf b m)
      (withHistory (make_move_applied t b m) b.history)) b := by
    refine (unmake_core_arrEq t _ _).trans ?_
    simp only [snapshotOf_active_color, snapshotOf_this_move]
    refine (umCaptureBack_congr _ _ _ (umMoveBack_congr _ _ _ (umCastleStep_congr _ _ _
      (umEpStep_congr _ _ _
        ((withHistory_arrEq _ _).trans (make_applied_arrEq t b m)))))).trans ?_
    by_cases hc : m.castling = true
    · -- castling move
      obtain ⟨hcapP, hprP, hepF, hpK, hsq⟩ := hcastle hc
      have hcap := hcapN hcapP
      rw [if_neg (fun hcc : m.promoted ≠ PNONE => hcc hprP)] at hbst
      rw [hpK] at hplf hbsf hbst
      rw [mmCapture_neg _ _ _ _ hcapP]
      rw [mmEpStep_neg _ _ _ _ hepF]
      rw [umEpStep_neg _ _ _ _ hepF]
      rw [umCaptureBack_neg _ _ _ _ hcapP]
      rw [mmCastleStep_pos _ _ _ _ hc]
      rw [umCastleStep_pos _ _ _ _ hc]
      rw [mmMovePiece_nonpromo _ _ _ _ hprP]
      rw [umMoveBack_nonpromo _ _ _ _ hprP]
      rw [hpK]
      rcases hsq with ⟨hW, hfrom, htr⟩ | ⟨hB, hfrom, htr⟩ <;>
        rcases htr with ⟨hto, hrk⟩ | ⟨hto, hrk⟩
      · -- white short castle: E1 to G1, rook H1 to F1
        rw [hfrom] at hplf hbsf hbpf
        rw [hto] at hcap hbst hbpt
        rw [hfrom, hto, umCastle_eq_G1]
        refine (put_piece_congr t (remove_piece_congr t (put_piece_congr t
          (remove_piece_congr t (mmCastle_arrEq_G1 t _ _) _ _ _) _ _ _) _ _ _)
          _ _ _).trans ?_
        exact castle_case_arrEq t _ b E1 G1 H1 F1 (by decide) (by decide) (by decide)
          (by decide) (by decide) (by decide) hplf hbsf hbpf hcap hbst hbpt hrk hmus
      · -- white long castle: E1 to C1, rook A1 to D1
        rw [hfrom] at hplf hbsf hbpf
        rw [hto] at hcap hbst hbpt
        rw [hfrom, hto, umCastle_eq_C1]
        refine (put_piece_congr t (remove_piece_congr t (put_piece_congr t
          (remove_piece_congr t (mmCastle_arrEq_C1 t _ _) _ _ _) _ _ _) _ _ _)
          _ _ _).trans ?_
        exact castle_case_arrEq t _ b E1 C1 A1 D1 (by decide) (by decide) (by decide)
          (by decide) (by decide) (by decide) hplf hbsf hbpf hcap hbst hbpt hrk hmus
      · -- black short castle: E8 to G8, rook H8 to F8
        rw [hfrom] at hplf hbsf hbpf
        rw [hto] at hcap hbst hbpt
        rw [hfrom, hto, umCastle_eq_G8]
        refine (put_piece_congr t (remove_piece_congr t (put_piece_congr t
          (remove_piece_congr t (mmCastle_arrEq_G8 t _ _) _ _ _) _ _ _) _ _ _)
          _ _ _).trans ?_
        exact castle_case_arrEq t _ b E8 G8 H8 F8 (by decide) (by decide) (by decide)
          (by decide) (by decide) (by decide) hplf hbsf hbpf hcap hbst hbpt hrk hmus
      · -- black long castle: E8 to C8, rook A8 to D8
        rw [hfrom] at hplf hbsf hbpf
        rw [hto] at hcap hbst hbpt
        rw [hfrom, hto, umCastle_eq_C8]
        refine (put_piece_congr t (remove_piece_congr t (put_piece_congr t
          (remove_piece_congr t (mmCastle_arrEq_C8 t _ _) _ _ _) _ _ _) _ _ _)
          _ _ _).trans ?_
        exact castle_case_arrEq t _ b E8 C8 A8 D8 (by decide) (by decide) (by decide)
          (by decide) (by decide) (by decide) hplf hbsf hbpf hcap hbst hbpt hrk hmus
    · -- not castling
      have hcF : m.castling = false := by
        cases hcc : m.castling
        · rfl
        · exact absurd hcc hc
      rw [mmCastleStep_neg _ _ _ _ hcF, umCastleStep_neg _ _ _ _ hcF]
      by_cases hepT : m.en_passant = true
      · -- en passant capture
        obtain ⟨hcapP, hprP, hcF2, hpP, hepok⟩ := hep hepT
        obtain ⟨h8, hpsf, hpst, hplps, hbsps, hbpps⟩ := hepok
        have hcap := hcapN hcapP
        rw [if_neg (fun hcc : m.promoted ≠ PNONE => hcc hprP)] at hbst
        rw [mmCapture_neg _ _ _ _ hcapP, umCaptureBack_neg _ _ _ _ hcapP,
          mmEpStep_pos _ _ _ _ hepT, umEpStep_pos _ _ _ _ hepT,
          mmMovePiece_nonpromo _ _ _ _ hprP, umMoveBack_nonpromo _ _ _ _ hprP, hpP]
        rw [hpP] at hplf hbsf hbst
        -- abbreviate the board after the pawn move
        have hYpl : (put_piece t (remove_piece t b (b.game_state.active_color) PAWN
            m.fromSq) (b.game_state.active_color) PAWN m.toSq).piece_list
            (if b.game_state.active_color = WHITE then m.toSq - 8 else m.toSq + 8)
            = PAWN := by
          rw [put_piece_list_other t _ _ PAWN hpst, remove_piece_list_other t b _ PAWN hpsf]
          exact hplps
        have hYbs : ((put_piece t (remove_piece t b (b.game_state.active_color) PAWN
            m.fromSq) (b.game_state.active_color) PAWN m.toSq).bb_side
            (b.game_state.active_color ^^^ 1) PAWN).testBit
            (if b.game_state.active_color = WHITE then m.toSq - 8 else m.toSq + 8)
            = true := by
          rw [put_bb_side_other t _ m.toSq (fun hcc => husopp hcc.1.symm),
            remove_bb_side_other t b m.fromSq (fun hcc => husopp hcc.1.symm)]
          exact hbsps
        have hYbp : ((put_piece t (remove_piece t b (b.game_state.active_color) PAWN
            m.fromSq) (b.game_state.active_color) PAWN m.toSq).bb_pieces
            (b.game_state.active_color ^^^ 1)).testBit
            (if b.game_state.active_color = WHITE then m.toSq - 8 else m.toSq + 8)
            = true := by
          rw [put_bb_pieces_other t _ PAWN m.toSq (fun hcc => husopp hcc.symm),
            remove_bb_pieces_other t b PAWN m.fromSq (fun hcc => husopp hcc.symm)]
          exact hbpps
        have hYm : (put_piece t (remove_piece t b (b.game_state.active_color) PAWN
            m.fromSq) (b.game_state.active_color) PAWN m.toSq).material_count
            (b.game_state.active_color ^^^ 1) < 65536 := by
          rw [put_material_other t _ PAWN m.toSq (fun hcc => husopp hcc.symm),
            remove_material_other t b PAWN m.fromSq (fun hcc => husopp hcc.symm)]
          exact hmopp
        refine (put_piece_congr t (remove_piece_congr t
          (remove_then_put_arrEq t _ (b.game_state.active_color ^^^ 1) PAWN _
            hYpl hYbs hYbp hYm) _ _ _) _ _ _).trans ?_
        exact movePair_roundtrip_arrEq t b (b.game_state.active_color) PAWN m.fromSq
          m.toSq hft hplf hbsf hbpf hcap hbst hbpt hmus
      · -- plain move or plain capture
        have hepF : m.en_passant = false := by
          cases hcc : m.en_passant
          · rfl
          · exact absurd hcc hepT
        rw [mmEpStep_neg _ _ _ _ hepF, umEpStep_neg _ _ _ _ hepF]
        by_cases hcp : m.captured = PNONE
        · -- plain move
          have hcap := hcapN hcp
          rw [mmCapture_neg _ _ _ _ hcp, umCaptureBack_neg _ _ _ _ hcp]
          exact move_roundtrip_arrEq t _ m b hft hplf hbsf hbpf hcap hbst hbpt hmus
            (fun hp => ⟨(hpromo hp).1, (hpromo hp).2.1⟩)
        · -- capture
          obtain ⟨hplto, hbsoto, hbpoto⟩ := hcapY hcp
          have hX0plf : (remove_piece t b (b.game_state.active_color ^^^ 1) m.captured
              m.toSq).piece_list m.fromSq = m.piece := by
            rw [remove_piece_list_other t b _ m.captured hft]
            exact hplf
          have hX0bsf : ((remove_piece t b (b.game_state.active_color ^^^ 1) m.captured
              m.toSq).bb_side (b.game_state.active_color) m.piece).testBit
              m.fromSq = true := by
            rw [remove_bb_side_other t b m.toSq (fun hcc => husopp hcc.1)]
            exact hbsf
          have hX0bpf : ((remove_piece t b (b.game_state.active_color ^^^ 1) m.captured
              m.toSq).bb_pieces (b.game_state.active_color)).testBit m.fromSq = true := by
            rw [remove_bb_pieces_other t b m.captured m.toSq husopp]
            exact hbpf
          have hX0plt : (remove_piece t b (b.game_state.active_color ^^^ 1) m.captured
              m.toSq).piece_list m.toSq = PNONE := remove_piece_list_same _ _ _ _ _
          have hX0bst : ((remove_piece t b (b.game_state.active_color ^^^ 1) m.captured
              m.toSq).bb_side (b.game_state.active_color)
              (if m.promoted ≠ PNONE then m.promoted else m.piece)).testBit
              m.toSq = false := by
            rw [remove_bb_side_other t b m.toSq (fun hcc => husopp hcc.1)]
            exact hbst
          have hX0bpt : ((remove_piece t b (b.game_state.active_color ^^^ 1) m.captured
              m.toSq).bb_pieces (b.game_state.active_color)).testBit m.toSq = false := by
            rw [remove_bb_pieces_other t b m.captured m.toSq husopp]
            exact hbpt
          have hX0m : (remove_piece t b (b.game_state.active_color ^^^ 1) m.captured
              m.toSq).material_count (b.game_state.active_color) < 65536 := by
            rw [remove_material_other t b m.captured m.toSq husopp]
            exact hmus
          have hInner : ArrEq (umMoveBack t (b.game_state.active_color) m
              (mmMovePiece t (b.game_state.active_color) m
                (mmCapture t (b.game_state.active_color) m b)))
              (remove_piece t b (b.game_state.active_color ^^^ 1) m.captured m.toSq) :=
            (umMoveBack_congr _ _ _ (mmMovePiece_congr _ _ _
              (mmCapture_pos_arrEq t _ m b hcp))).trans
              (move_roundtrip_arrEq t _ m _ hft hX0plf hX0bsf hX0bpf hX0plt hX0bst hX0bpt
                hX0m (fun hp => ⟨(hpromo hp).1, (hpromo hp).2.1⟩))
          rw [umCaptureBack_pos _ _ _ _ hcp]
          exact (put_piece_congr t hInner _ _ _).trans
            (remove_then_put_arrEq t b _ m.captured m.toSq hplto hbsoto hbpoto hmopp)
  refine Board.ext harr.1 harr.2.1 ?_ ?_ harr.2.2.1 harr.2.2.2
  · rw [unmake_core_game_state]
    exact GameState.ext rfl rfl rfl rfl rfl rfl
  · rw [unmake_core_history, withHistory_history]
theorem make_move_legal_eq (t : Tables) (b : Board) (m : Move)
    (hsa : t.square_attacked (make_move_applied t b m) (b.game_state.active_color ^^^ 1)
      (trailingZeros64 (get_pieces (make_move_applied t b m) KING
        b.game_state.active_color)) = false) :
    make_move t b m = (make_move_applied t b m, true) := by
  simp [make_move, hsa]

theorem make_move_illegal_eq (t : Tables) (b : Board) (m : Move)
    (hsa : t.square_attacked (make_move_applied t b m) (b.game_state.active_color ^^^ 1)
      (trailingZeros64 (get_pieces (make_move_applied t b m) KING
        b.game_state.active_color)) = true) :
    make_move t b m = (unmake_move t (make_move_applied t b m), false) := by
  simp [make_move, hsa]

/--
C1: for every board state and every legal move m (a pseudo-legal move,
characterized by makeOk, after which make_move reports legality),
executing make and then unmake restores the board to a state equal to
the pre-call state in every component: all piece bitboards, both
side-occupancy bitboards, the piece list, the material counts, the
irreversible game state including the Zobrist key, and the history stack
(hence its length) (src/src/board/make_move.rs lines 11-198 together
with the spec-modelled unmake of section 4.4).
-/
theorem make_unmake_roundtrip (t : Tables) (b : Board) (m : Move) (h : makeOk b m)
    (hleg : (make_move t b m).2 = true) :
    unmake_move t (make_move t b m).1 = b := by
  cases hsa : t.square_attacked (make_move_applied t b m)
      (b.game_state.active_color ^^^ 1)
      (trailingZeros64 (get_pieces (make_move_applied t b m) KING
        b.game_state.active_color)) with
  | false =>
    rw [make_move_legal_eq t b m hsa]
    exact unmake_make_applied t b m h
  | true =>
    rw [make_move_illegal_eq t b m hsa] at hleg
    simp at hleg

/-- Witness board for the make and unmake round trips: white king on E1,
black king on E8, white pawn on A2 (square 8). -/
def cbMk : Board :=
  { bb_side := fun s p =>
      if s = 0 ∧ p = 0 then 2 ^ 4
      else if s = 1 ∧ p = 0 then 2 ^ 60
      else if s = 0 ∧ p = 5 then 2 ^ 8
      else 0
    bb_pieces := fun s => if s = 0 then 2 ^ 4 + 2 ^ 8 else if s = 1 then 2 ^ 60 else 0
    game_state :=
      { active_color := 0, castling := 0, en_passant := none
        halfmove_clock := 3, fullmove_number := 7, zobrist_key := 12345 }
    history := []
    piece_list := fun sq =>
      if sq = 4 then KING else if sq = 60 then KING else if sq = 8 then PAWN else PNONE
    material_count := fun s => if s = 0 then 100 else 0 }

/-- Witness move: the white pawn steps from A2 to A3. -/
def cmMk : Move :=
  { piece := PAWN, fromSq := 8, toSq := 16, captured := PNONE, promoted := PNONE
    en_passant := false, double_step := false, castling := false }

theorem make_unmake_roundtrip_witness :
    unmake_move cTables (make_move cTables cbMk cmMk).1 = cbMk :=
  make_unmake_roundtrip cTables cbMk cmMk (by decide) (by decide)

/--
C2: for every board state and every pseudo-legal move m (makeOk) after
which the moving side's own king is attacked by the opponent, make_move
returns false and leaves the board equal to the pre-call state in every
component, the unmake history stack included
(src/src/board/make_move.rs lines 187-197).
-/
theorem make_move_illegal_restores (t : Tables) (b : Board) (m : Move) (h : makeOk b m)
    (hatt : t.square_attacked (make_move_applied t b m) (b.game_state.active_color ^^^ 1)
      (trailingZeros64 (get_pieces (make_move_applied t b m) KING
        b.game_state.active_color)) = true) :
    make_move t b m = (b, false) := by
  rw [make_move_illegal_eq t b m hatt, unmake_make_applied t b m h]

/-- A table context whose square-attacked predicate always reports an
attack, used to witness the illegal-move path. -/
def cTablesAtt : Tables :=
  { zrPiece := fun _ _ _ => 0
    zrCastling := fun _ => 0
    zrSide := fun _ => 0
    zrEnPassant := fun _ => 0
    piece_values := fun _ => 0
    square_attacked := fun _ _ _ => true }

theorem make_move_illegal_restores_witness :
    make_move cTablesAtt cbMk cmMk = (cbMk, false) :=
  make_move_illegal_restores cTablesAtt cbMk cmMk (by decide) (by decide)
section SearchEmbedding

/-- MAX_DEPTH.  Modelled from the spec: the constant lives in
src/src/defs.rs of the full tree, absent from src; the spec only states
that the search stops deepening at this ply bound, and none of the
verified properties depend on its value. -/
def MAX_DEPTH : Nat := 125

/-- CHECKMATE score.  Modelled from the spec (search::defs is absent
from src): a large positive score; mate scores are CHECKMATE minus the
ply distance. -/
def CHECKMATE : Int := 25000

/-- DRAW score (spec section 4.6: STALEMATE = DRAW = 0). -/
def DRAW : Int := 0

/-- STALEMATE score, equal to DRAW. -/
def STALEMATE : Int := 0

/-- Board::us (src/src/board.rs lines 83-85). -/
def Board.us (b : Board) : Nat := b.game_state.active_color

/-- Board::opponent (src/src/board.rs lines 87-89). -/
def Board.opponent (b : Board) : Nat := b.game_state.active_color ^^^ 1

/-- Board::king_square (src/src/board.rs lines 91-93). -/
def king_square (b : Board) (side : Nat) : Nat := trailingZeros64 (b.bb_side side KING)

/-- The part of refs.search_info that the embedded search reads and
writes: ply, node count, and the termination flag (SearchTerminate
collapsed to a Bool: false = Nothing, true = Stop or Quit). -/
structure SearchInfo where
  ply : Nat
  nodes : Nat
  terminate : Bool
deriving DecidableEq, Repr

/-- The read-only collaborators of the search (the rest of SearchRefs):
the board tables, the evaluator (a black box per spec section 4.5), the
move generator output (generate_moves MoveType::All after score_moves
and the pick_move selection, i.e. the list in traversal order; and the
captures list used by quiescence), and the termination poll made at
checkpoints (is_checkpoint / check_for_termination, which depend on
time and channels; modelled from the spec as a function of the node
count). -/
structure SearchCtx where
  tables : Tables
  evalPos : Board → Int
  genAll : Board → List Move
  genCaptures : Board → List Move
  checkTerm : Nat → Bool

/-- The mutable state threaded through the search: the board and the
search info. -/
structure SState where
  board : Board
  info : SearchInfo

/-- The score of one searched move (src/src/search/alpha_beta.rs lines
114-124): DRAW if the position after the move is a draw by rule,
otherwise the negated recursive search value, together with the state
the recursion returns. -/
def ab_score (recur : Int → Int → SState → Int × SState) (beta alpha : Int)
    (st1 : SState) : Int × SState :=
  if is_draw st1.board then (DRAW, st1)
  else
    let r := recur (-beta) (-alpha) st1
    (-(r.1), r.2)

/-- The move loop of Search::alpha_beta
(src/src/search/alpha_beta.rs lines 76-147), with the recursive call
passed as a parameter.  Returns (some beta) on a beta cutoff, otherwise
none together with the final alpha, the legal-move count and the
threaded state.  The PV and best-move bookkeeping does not affect the
returned value and is omitted. -/
def ab_loop (ctx : SearchCtx) (recur : Int → Int → SState → Int × SState) :
    List Move → Int → Int → Nat → SState → Option Int × Int × Nat × SState
  | [], _, alpha, legal, st => (none, alpha, legal, st)
  | mv :: rest, beta, alpha, legal, st =>
    -- terminate != Nothing breaks the loop (line 77).
    if st.info.terminate then (none, alpha, legal, st)
    else
      match make_move ctx.tables st.board mv with
      | (b2, false) => ab_loop ctx recur rest beta alpha legal { st with board := b2 }
      | (b2, true) =>
        let res := ab_score recur beta alpha
          { board := b2, info := { st.info with ply := st.info.ply + 1 } }
        -- take the move back, decrease ply (lines 126-128).
        let st3 : SState := { board := unmake_move ctx.tables res.2.board,
                              info := { res.2.info with ply := res.2.info.ply - 1 } }
        if res.1 ≥ beta then (some beta, alpha, legal + 1, st3)
        else if res.1 > alpha then ab_loop ctx recur rest beta res.1 (legal + 1) st3
        else ab_loop ctx recur rest beta alpha (legal + 1) st3

/-- The capture loop of quiescence.  Modelled from the spec (section
4.6): iterate over the generated captures as in the main loop - still
negamax, still make/unmake, still legality-checked - with beta cutoffs
and alpha updates; src/src/search/quiescence.rs is absent from src. -/
def q_loop (ctx : SearchCtx) (recur : Int → Int → SState → Int × SState) :
    List Move → Int → Int → SState → Option Int × Int × SState
  | [], _, alpha, st => (none, alpha, st)
  | mv :: rest, beta, alpha, st =>
    match make_move ctx.tables st.board mv with
    | (b2, false) => q_loop ctx recur rest beta alpha { st with board := b2 }
    | (b2, true) =>
      let st1 : SState := { board := b2, info := { st.info with ply := st.info.ply + 1 } }
      let r := recur (-beta) (-alpha) st1
      let score := -(r.1)
      let st3 : SState := { board := unmake_move ctx.tables r.2.board,
                            info := { r.2.info with ply := r.2.info.ply - 1 } }
      if score ≥ beta then (some beta, alpha, st3)
      else if score > alpha then q_loop ctx recur rest beta score st3
      else q_loop ctx recur rest beta alpha st3

/-- Quiescence search.  Modelled from the spec (section 4.6): stand_pat
is the static evaluation; a stand_pat at or above beta returns beta;
alpha is raised to stand_pat; then captures only are searched, and
alpha is returned at the end.  The Rust recursion terminates by
exhausting captures; here the recursion depth is bounded by explicit
fuel, returning alpha on exhaustion.
src/src/search/quiescence.rs is absent from src. -/
def quiescence (ctx : SearchCtx) : Nat → Int → Int → SState → Int × SState
  | 0, alpha, _, st => (alpha, st)
  | fuel + 1, alpha, beta, st =>
    let stand_pat := ctx.evalPos st.board
    if stand_pat ≥ beta then (beta, st)
    else
      let alpha := max alpha stand_pat
      let moves := ctx.genCaptures st.board
      match q_loop ctx (fun a b s => quiescence ctx fuel a b s) moves beta alpha st with
      | (some v, _, st2) => (v, st2)
      | (none, alphaF, st2) => (alphaF, st2)

/-- Search::alpha_beta (src/src/search/alpha_beta.rs lines 34-174):
poll termination at a checkpoint, recurse into quiescence at depth 0,
return the raw static evaluation at the ply horizon, otherwise run the
move loop; with no legal move found return the mate score
-CHECKMATE + ply when in check and STALEMATE when not, and return the
final alpha otherwise.  Scores are i16 in Rust and Int here; qfuel
bounds the quiescence recursion. -/
def alpha_beta (ctx : SearchCtx) (qfuel : Nat) : Nat → Int → Int → SState → Int × SState
  | 0, alpha, beta, st =>
    let st : SState := { st with info := { st.info with
      terminate := st.info.terminate || ctx.checkTerm st.info.nodes } }
    quiescence ctx qfuel alpha beta st
  | d + 1, alpha, beta, st =>
    let st : SState := { st with info := { st.info with
      terminate := st.info.terminate || ctx.checkTerm st.info.nodes } }
    if st.info.ply ≥ MAX_DEPTH then (ctx.evalPos st.board, st)
    else
      let moves := ctx.genAll st.board
      let st : SState := { st with info := { st.info with nodes := st.info.nodes + 1 } }
      match ab_loop ctx (fun a b s => alpha_beta ctx qfuel d a b s) moves beta alpha 0 st with
      | (some v, _, _, st2) => (v, st2)
      | (none, alphaF, legal, st2) =>
        if legal = 0 then
          let ksq := king_square st2.board (Board.us st2.board)
          let check := ctx.tables.square_attacked st2.board (Board.opponent st2.board) ksq
          if check then (-CHECKMATE + (st2.info.ply : Int), st2)
          else (STALEMATE, st2)
        else (alphaF, st2)

end SearchEmbedding
section FailHard

/-- The move loop is fail-hard regardless of the values the recursive
calls return: an early return carries exactly beta, and the final alpha
stays inside [alpha, beta]. -/
theorem ab_loop_bounds (ctx : SearchCtx) (recur : Int → Int → SState → Int × SState) :
    ∀ (moves : List Move) (beta alpha : Int) (legal : Nat) (st : SState), alpha ≤ beta →
      (∀ v, (ab_loop ctx recur moves beta alpha legal st).1 = some v → v = beta) ∧
      alpha ≤ (ab_loop ctx recur moves beta alpha legal st).2.1 ∧
      (ab_loop ctx recur moves beta alpha legal st).2.1 ≤ beta := by
  intro moves
  induction moves with
  | nil =>
    intro beta alpha legal st hab
    simp only [ab_loop]
    exact ⟨fun v hv => Option.noConfusion hv, le_refl _, hab⟩
  | cons mv rest ih =>
    intro beta alpha legal st hab
    simp only [ab_loop]
    split
    · exact ⟨fun v hv => Option.noConfusion hv, le_refl _, hab⟩
    · rcases hmk : make_move ctx.tables st.board mv with ⟨b2, lg⟩
      cases lg
      · simpa only [hmk] using ih beta alpha legal { st with board := b2 } hab
      · simp only [hmk]
        rcases hres : ab_score recur beta alpha
            { board := b2, info := { st.info with ply := st.info.ply + 1 } } with ⟨sc, st2⟩
        simp only [hres]
        by_cases hge : sc ≥ beta
        · rw [if_pos hge]
          refine ⟨fun v hv => ?_, le_refl _, hab⟩
          injection hv with hv2
          exact hv2.symm
        · rw [if_neg hge]
          by_cases hgt : sc > alpha
          · rw [if_pos hgt]
            obtain ⟨h1, h2, h3⟩ := ih beta sc (legal + 1) _ (le_of_lt (lt_of_not_ge hge))
            exact ⟨h1, le_trans (le_of_lt hgt) h2, h3⟩
          · rw [if_neg hgt]
            exact ih beta alpha (legal + 1) _ hab

end FailHard
section FailHardQ

/-- The quiescence capture loop is fail-hard in the same way as the
main loop. -/
theorem q_loop_bounds (ctx : SearchCtx) (recur : Int → Int → SState → Int × SState) :
    ∀ (moves : List Move) (beta alpha : Int) (st : SState), alpha ≤ beta →
      (∀ v, (q_loop ctx recur moves beta alpha st).1 = some v → v = beta) ∧
      alpha ≤ (q_loop ctx recur moves beta alpha st).2.1 ∧
      (q_loop ctx recur moves beta alpha st).2.1 ≤ beta := by
  intro moves
  induction moves with
  | nil =>
    intro beta alpha st hab
    simp only [q_loop]
    exact ⟨fun v hv => Option.noConfusion hv, le_refl _, hab⟩
  | cons mv rest ih =>
    intro beta alpha st hab
    simp only [q_loop]
    rcases hmk : make_move ctx.tables st.board mv with ⟨b2, lg⟩
    cases lg
    · simpa only [hmk] using ih beta alpha { st with board := b2 } hab
    · simp only [hmk]
      rcases hr : recur (-beta) (-alpha)
          { board := b2, info := { st.info with ply := st.info.ply + 1 } } with ⟨rv, st2⟩
      simp only [hr]
      by_cases hge : -rv ≥ beta
      · rw [if_pos hge]
        refine ⟨fun v hv => ?_, le_refl _, hab⟩
        injection hv with hv2
        exact hv2.symm
      · rw [if_neg hge]
        by_cases hgt : -rv > alpha
        · rw [if_pos hgt]
          obtain ⟨h1, h2, h3⟩ := ih beta (-rv) _ (le_of_lt (lt_of_not_ge hge))
          exact ⟨h1, le_trans (le_of_lt hgt) h2, h3⟩
        · rw [if_neg hgt]
          exact ih beta alpha _ hab

/-- Quiescence is fail-hard: with alpha at most beta, the value it
returns lies in the closed interval [alpha, beta], for every fuel bound
and every state. -/
theorem quiescence_bounds (ctx : SearchCtx) :
    ∀ (fuel : Nat) (alpha beta : Int) (st : SState), alpha ≤ beta →
      alpha ≤ (quiescence ctx fuel alpha beta st).1 ∧
      (quiescence ctx fuel alpha beta st).1 ≤ beta := by
  intro fuel
  induction fuel with
  | zero =>
    intro alpha beta st hab
    simp only [quiescence]
    exact ⟨le_refl _, hab⟩
  | succ fuel _ =>
    intro alpha beta st hab
    simp only [quiescence]
    by_cases hsp : ctx.evalPos st.board ≥ beta
    · rw [if_pos hsp]
      exact ⟨hab, le_refl _⟩
    · rw [if_neg hsp]
      have hab2 : max alpha (ctx.evalPos st.board) ≤ beta :=
        max_le hab (le_of_lt (lt_of_not_ge hsp))
      obtain ⟨h1, h2, h3⟩ := q_loop_bounds ctx (fun a b s => quiescence ctx fuel a b s)
        (ctx.genCaptures st.board) beta (max alpha (ctx.evalPos st.board)) st hab2
      rcases hq : q_loop ctx (fun a b s => quiescence ctx fuel a b s)
          (ctx.genCaptures st.board) beta (max alpha (ctx.evalPos st.board)) st
        with ⟨ov, alphaF, st2⟩
      rw [hq] at h1 h2 h3
      cases ov with
      | none =>
        simp only
        exact ⟨le_trans (le_max_left _ _) h2, h3⟩
      | some v =>
        simp only
        rw [h1 v rfl]
        exact ⟨hab, le_refl _⟩

end FailHardQ
section PlyInvariant

/-- The score helper returns a state with the same ply as the state it
was given, provided the recursive call preserves the ply. -/
theorem ab_score_ply (recur : Int → Int → SState → Int × SState)
    (hrec : ∀ a b s, ((recur a b s).2).info.ply = s.info.ply)
    (beta alpha : Int) (st1 : SState) :
    ((ab_score recur beta alpha st1).2).info.ply = st1.info.ply := by
  unfold ab_score
  split
  · rfl
  · exact hrec _ _ _

/-- The move loop leaves the ply unchanged: every iteration raises the
ply by one before the recursive call and lowers it by one after,
provided the recursive call itself preserves the ply. -/
theorem ab_loop_ply (ctx : SearchCtx) (recur : Int → Int → SState → Int × SState)
    (hrec : ∀ a b s, ((recur a b s).2).info.ply = s.info.ply) :
    ∀ (moves : List Move) (beta alpha : Int) (legal : Nat) (st : SState),
      ((ab_loop ctx recur moves beta alpha legal st).2.2.2).info.ply = st.info.ply := by
  intro moves
  induction moves with
  | nil =>
    intro beta alpha legal st
    rfl
  | cons mv rest ih =>
    intro beta alpha legal st
    simp only [ab_loop]
    split
    · rfl
    · rcases hmk : make_move ctx.tables st.board mv with ⟨b2, lg⟩
      cases lg
      · simpa only [hmk] using ih beta alpha legal { st with board := b2 }
      · simp only [hmk]
        rcases hres : ab_score recur beta alpha
            { board := b2, info := { st.info with ply := st.info.ply + 1 } } with ⟨sc, st2⟩
        have hply2 : st2.info.ply = st.info.ply + 1 := by
          have hp := ab_score_ply recur hrec beta alpha
            { board := b2, info := { st.info with ply := st.info.ply + 1 } }
          rw [hres] at hp
          exact hp
        simp only [hres]
        by_cases hge : sc ≥ beta
        · rw [if_pos hge]
          show st2.info.ply - 1 = st.info.ply
          omega
        · rw [if_neg hge]
          by_cases hgt : sc > alpha
          · rw [if_pos hgt]
            refine (ih beta sc (legal + 1)
              { board := unmake_move ctx.tables st2.board,
                info := { st2.info with ply := st2.info.ply - 1 } }).trans ?_
            show st2.info.ply - 1 = st.info.ply
            omega
          · rw [if_neg hgt]
            refine (ih beta alpha (legal + 1)
              { board := unmake_move ctx.tables st2.board,
                info := { st2.info with ply := st2.info.ply - 1 } }).trans ?_
            show st2.info.ply - 1 = st.info.ply
            omega

/-- The capture loop of quiescence leaves the ply unchanged in the same
way. -/
theorem q_loop_ply (ctx : SearchCtx) (recur : Int → Int → SState → Int × SState)
    (hrec : ∀ a b s, ((recur a b s).2).info.ply = s.info.ply) :
    ∀ (moves : List Move) (beta alpha : Int) (st : SState),
      ((q_loop ctx recur moves beta alpha st).2.2).info.ply = st.info.ply := by
  intro moves
  induction moves with
  | nil =>
    intro beta alpha st
    rfl
  | cons mv rest ih =>
    intro beta alpha st
    simp only [q_loop]
    rcases hmk : make_move ctx.tables st.board mv with ⟨b2, lg⟩
    cases lg
    · simpa only [hmk] using ih beta alpha { st with board := b2 }
    · simp only [hmk]
      rcases hr : recur (-beta) (-alpha)
          { board := b2, info := { st.info with ply := st.info.ply + 1 } } with ⟨rv, st2⟩
      have hply2 : st2.info.ply = st.info.ply + 1 := by
        have hp := hrec (-beta) (-alpha)
          { board := b2, info := { st.info with ply := st.info.ply + 1 } }
        rw [hr] at hp
        exact hp
      simp only [hr]
      by_cases hge : -rv ≥ beta
      · rw [if_pos hge]
        show st2.info.ply - 1 = st.info.ply
        omega
      · rw [if_neg hge]
        by_cases hgt : -rv > alpha
        · rw [if_pos hgt]
          refine (ih beta (-rv)
            { board := unmake_move ctx.tables st2.board,
              info := { st2.info with ply := st2.info.ply - 1 } }).trans ?_
          show st2.info.ply - 1 = st.info.ply
          omega
        · rw [if_neg hgt]
          refine (ih beta alpha
            { board := unmake_move ctx.tables st2.board,
              info := { st2.info with ply := st2.info.ply - 1 } }).trans ?_
          show st2.info.ply - 1 = st.info.ply
          omega

/-- Quiescence returns a state with the ply it was given, for every
fuel bound. -/
theorem quiescence_ply (ctx : SearchCtx) :
    ∀ (fuel : Nat) (alpha beta : Int) (st : SState),
      ((quiescence ctx fuel alpha beta st).2).info.ply = st.info.ply := by
  intro fuel
  induction fuel with
  | zero =>
    intro alpha beta st
    rfl
  | succ fuel ih =>
    intro alpha beta st
    simp only [quiescence]
    by_cases hsp : ctx.evalPos st.board ≥ beta
    · rw [if_pos hsp]
    · rw [if_neg hsp]
      have hp := q_loop_ply ctx (fun a b s => quiescence ctx fuel a b s)
        (fun a b s => ih a b s) (ctx.genCaptures st.board) beta
        (max alpha (ctx.evalPos st.board)) st
      rcases hq : q_loop ctx (fun a b s => quiescence ctx fuel a b s)
          (ctx.genCaptures st.board) beta (max alpha (ctx.evalPos st.board)) st
        with ⟨ov, alphaF, st2⟩
      rw [hq] at hp
      cases ov with
      | none => exact hp
      | some v => exact hp

/-- alpha_beta returns a state with the ply it was given: the
checkpoint, the horizon exit, the no-legal-move exits and the move loop
all preserve the ply. -/
theorem alpha_beta_ply (ctx : SearchCtx) (qfuel : Nat) :
    ∀ (depth : Nat) (alpha beta : Int) (st : SState),
      ((alpha_beta ctx qfuel depth alpha beta st).2).info.ply = st.info.ply := by
  intro depth
  induction depth with
  | zero =>
    intro alpha beta st
    simp only [alpha_beta]
    exact quiescence_ply ctx qfuel alpha beta _
  | succ d ih =>
    intro alpha beta st
    simp only [alpha_beta]
    by_cases hply : st.info.ply ≥ MAX_DEPTH
    · rw [if_pos hply]
    · rw [if_neg hply]
      have hp := ab_loop_ply ctx (fun a b s => alpha_beta ctx qfuel d a b s)
        (fun a b s => ih a b s) (ctx.genAll st.board) beta alpha 0
        { st with info := { st.info with
            terminate := st.info.terminate || ctx.checkTerm st.info.nodes,
            nodes := st.info.nodes + 1 } }
      rcases hl : ab_loop ctx (fun a b s => alpha_beta ctx qfuel d a b s)
          (ctx.genAll st.board) beta alpha 0
          { st with info := { st.info with
              terminate := st.info.terminate || ctx.checkTerm st.info.nodes,
              nodes := st.info.nodes + 1 } } with ⟨ov, alphaF, legal, st2⟩
      rw [hl] at hp
      cases ov with
      | some v => exact hp
      | none =>
        simp only
        by_cases hleg : legal = 0
        · rw [if_pos hleg]
          split
          · exact hp
          · exact hp
        · rw [if_neg hleg]
          exact hp

end PlyInvariant
/--
C3 (amended): the negamax alpha-beta search is fail-hard up to its two
unclamped exits, each tied to the condition that produces it.  For
every depth, every window with alpha at most beta (in particular every
alpha < beta), every quiescence fuel bound and every search state, the
value returned by alpha_beta lies in the closed interval [alpha, beta],
unless the node has nonzero depth and either (a) its ply has reached
the MAX_DEPTH horizon, and the value is the raw static evaluation of
the node's own board, or (b) its ply is below the horizon, the node's
own move loop (the exact call alpha_beta makes, on the node's board
after the checkpoint and node-count bump) finds no legal move - no
beta cutoff and a legal count of zero - and the value is -CHECKMATE
plus the node's own ply when the side to move is reported in check on
the loop's final board, and STALEMATE = 0 when it is not
(src/src/search/alpha_beta.rs lines 34-174; the unclamped exits are
lines 57 and 151-164).
-/
theorem alpha_beta_fail_hard (ctx : SearchCtx) (qfuel depth : Nat) (alpha beta : Int)
    (st : SState) (hab : alpha ≤ beta) :
    (alpha ≤ (alpha_beta ctx qfuel depth alpha beta st).1 ∧
      (alpha_beta ctx qfuel depth alpha beta st).1 ≤ beta) ∨
    (0 < depth ∧ MAX_DEPTH ≤ st.info.ply ∧
      (alpha_beta ctx qfuel depth alpha beta st).1 = ctx.evalPos st.board) ∨
    (0 < depth ∧ st.info.ply < MAX_DEPTH ∧
      ∃ r : Option Int × Int × Nat × SState,
        r = ab_loop ctx (fun a b s => alpha_beta ctx qfuel (depth - 1) a b s)
              (ctx.genAll st.board) beta alpha 0
              (SState.mk st.board (SearchInfo.mk st.info.ply (st.info.nodes + 1)
                (st.info.terminate || ctx.checkTerm st.info.nodes))) ∧
        r.1 = none ∧ r.2.2.1 = 0 ∧
        (alpha_beta ctx qfuel depth alpha beta st).1 =
          (if ctx.tables.square_attacked r.2.2.2.board (Board.opponent r.2.2.2.board)
              (king_square r.2.2.2.board (Board.us r.2.2.2.board))
           then -CHECKMATE + (st.info.ply : Int)
           else STALEMATE)) := by
  cases depth with
  | zero =>
    simp only [alpha_beta]
    exact Or.inl (quiescence_bounds ctx qfuel alpha beta _ hab)
  | succ d =>
    simp only [alpha_beta]
    by_cases hply : st.info.ply ≥ MAX_DEPTH
    · rw [if_pos hply]
      exact Or.inr (Or.inl ⟨Nat.succ_pos d, hply, rfl⟩)
    · rw [if_neg hply]
      obtain ⟨h1, h2, h3⟩ := ab_loop_bounds ctx (fun a b s => alpha_beta ctx qfuel d a b s)
        (ctx.genAll st.board) beta alpha 0
        { st with info := { st.info with
            terminate := st.info.terminate || ctx.checkTerm st.info.nodes,
            nodes := st.info.nodes + 1 } } hab
      have hpl := ab_loop_ply ctx (fun a b s => alpha_beta ctx qfuel d a b s)
        (fun a b s => alpha_beta_ply ctx qfuel d a b s)
        (ctx.genAll st.board) beta alpha 0
        { st with info := { st.info with
            terminate := st.info.terminate || ctx.checkTerm st.info.nodes,
            nodes := st.info.nodes + 1 } }
      rcases hl : ab_loop ctx (fun a b s => alpha_beta ctx qfuel d a b s)
          (ctx.genAll st.board) beta alpha 0
          { st with info := { st.info with
              terminate := st.info.terminate || ctx.checkTerm st.info.nodes,
              nodes := st.info.nodes + 1 } } with ⟨ov, alphaF, legal, st2⟩
      rw [hl] at h1 h2 h3 hpl
      have hst2 : st2.info.ply = st.info.ply := hpl
      cases ov with
      | some v =>
        simp only
        rw [h1 v rfl]
        exact Or.inl ⟨hab, le_refl _⟩
      | none =>
        simp only
        by_cases hleg : legal = 0
        · rw [if_pos hleg]
          refine Or.inr (Or.inr ⟨Nat.succ_pos d, lt_of_not_ge hply,
            ⟨(none, alphaF, legal, st2), ?_, rfl, hleg, ?_⟩⟩)
          · simp only [Nat.add_sub_cancel, Nat.succ_sub_one]
            exact hl.symm
          · cases hchk : ctx.tables.square_attacked st2.board (Board.opponent st2.board)
                (king_square st2.board (Board.us st2.board)) with
            | false => simp [hchk]
            | true => simp [hchk, hst2]
        · rw [if_neg hleg]
          exact Or.inl ⟨h2, h3⟩

/-- A concrete search context for the counterexample and witnesses: no
moves anywhere, evaluation 0, no termination, no attacks. -/
def cCtx : SearchCtx :=
  { tables := cTables
    evalPos := fun _ => 0
    genAll := fun _ => []
    genCaptures := fun _ => []
    checkTerm := fun _ => false }

/-- A concrete search state at the root of cbMk. -/
def cSt : SState :=
  { board := cbMk, info := { ply := 0, nodes := 0, terminate := false } }

/--
C3 counterexample: the claim as stated is false.  On a stalemated node
(no pseudo-legal moves, king not attacked) with the window (5, 10),
alpha < beta holds but alpha_beta returns STALEMATE = 0, which is
outside [alpha, beta] (src/src/search/alpha_beta.rs lines 151-164
return mate and stalemate scores without clamping; line 57 likewise
returns the raw evaluation at the ply horizon).
-/
theorem alpha_beta_fail_hard_counterexample :
    (5 : Int) < 10 ∧
      ¬(5 ≤ (alpha_beta cCtx 1 1 5 10 cSt).1 ∧ (alpha_beta cCtx 1 1 5 10 cSt).1 ≤ 10) := by
  constructor
  · decide
  · have hv : (alpha_beta cCtx 1 1 5 10 cSt).1 = 0 := rfl
    rw [hv]
    decide

/-- Witness for the amended C3 at a concrete input: a stalemated node
with the window (5, 10), where the no-legal-move disjunct holds with
the STALEMATE score. -/
theorem alpha_beta_fail_hard_witness :
    (5 : Int) ≤ 10 ∧
      ((5 ≤ (alpha_beta cCtx 1 1 5 10 cSt).1 ∧ (alpha_beta cCtx 1 1 5 10 cSt).1 ≤ 10) ∨
      (0 < 1 ∧ MAX_DEPTH ≤ cSt.info.ply ∧
        (alpha_beta cCtx 1 1 5 10 cSt).1 = cCtx.evalPos cSt.board) ∨
      (0 < 1 ∧ cSt.info.ply < MAX_DEPTH ∧
        ∃ r : Option Int × Int × Nat × SState,
          r = ab_loop cCtx (fun a b s => alpha_beta cCtx 1 (1 - 1) a b s)
                (cCtx.genAll cSt.board) 10 5 0
                (SState.mk cSt.board (SearchInfo.mk cSt.info.ply (cSt.info.nodes + 1)
                  (cSt.info.terminate || cCtx.checkTerm cSt.info.nodes))) ∧
          r.1 = none ∧ r.2.2.1 = 0 ∧
          (alpha_beta cCtx 1 1 5 10 cSt).1 =
            (if cCtx.tables.square_attacked r.2.2.2.board (Board.opponent r.2.2.2.board)
                (king_square r.2.2.2.board (Board.us r.2.2.2.board))
             then -CHECKMATE + (cSt.info.ply : Int)
             else STALEMATE))) :=
  ⟨by decide, alpha_beta_fail_hard cCtx 1 1 5 10 cSt (by decide)⟩
/-- If every generated move fails the make legality check (make returns
false and restores the board), the loop finds no legal move and leaves
everything as it was. -/
theorem ab_loop_all_illegal (ctx : SearchCtx)
    (recur : Int → Int → SState → Int × SState) :
    ∀ (moves : List Move) (beta alpha : Int) (legal : Nat) (st : SState),
      (∀ mv ∈ moves, make_move ctx.tables st.board mv = (st.board, false)) →
      ab_loop ctx recur moves beta alpha legal st = (none, alpha, legal, st) := by
  intro moves
  induction moves with
  | nil =>
    intro beta alpha legal st _
    simp only [ab_loop]
  | cons mv rest ih =>
    intro beta alpha legal st hfail
    simp only [ab_loop]
    split
    · rfl
    · rw [hfail mv (List.mem_cons_self mv rest)]
      show ab_loop ctx recur rest beta alpha legal st = (none, alpha, legal, st)
      exact ih beta alpha legal st (fun m hm => hfail m (List.mem_cons_of_mem mv hm))

/--
C4: whenever the full move loop of alpha_beta finds no legal move
(every generated pseudo-legal move fails the make legality check, which
restores the board), alpha_beta at nonzero depth below the ply horizon
returns -CHECKMATE + ply when the side to move's king is attacked by
the opponent, and STALEMATE (= DRAW = 0) when it is not
(src/src/search/alpha_beta.rs lines 151-164).
-/
theorem alpha_beta_no_legal_moves (ctx : SearchCtx) (qfuel d : Nat) (alpha beta : Int)
    (st : SState)
    (hply : st.info.ply < MAX_DEPTH)
    (hfail : ∀ mv ∈ ctx.genAll st.board,
      make_move ctx.tables st.board mv = (st.board, false)) :
    (alpha_beta ctx qfuel (d + 1) alpha beta st).1 =
      if ctx.tables.square_attacked st.board (Board.opponent st.board)
          (king_square st.board (Board.us st.board))
      then -CHECKMATE + (st.info.ply : Int)
      else STALEMATE := by
  simp only [alpha_beta]
  rw [if_neg (not_le.mpr hply)]
  rw [ab_loop_all_illegal ctx (fun a b s => alpha_beta ctx qfuel d a b s)
    (ctx.genAll st.board) beta alpha 0
    (SState.mk st.board (SearchInfo.mk st.info.ply (st.info.nodes + 1)
      (st.info.terminate || ctx.checkTerm st.info.nodes))) hfail]
  simp only
  cases hchk : ctx.tables.square_attacked st.board (Board.opponent st.board)
      (king_square st.board (Board.us st.board)) with
  | false => simp [hchk]
  | true => simp [hchk]

/-- Witness for C4 at a concrete input: the stalemate-like context with
no generated moves; the king is not reported attacked, so the value is
STALEMATE. -/
theorem alpha_beta_no_legal_moves_witness :
    cSt.info.ply < MAX_DEPTH ∧
      (alpha_beta cCtx 1 1 (-300) 300 cSt).1 =
        (if cCtx.tables.square_attacked cSt.board (Board.opponent cSt.board)
            (king_square cSt.board (Board.us cSt.board))
         then -CHECKMATE + (cSt.info.ply : Int)
         else STALEMATE) :=
  ⟨by decide,
    alpha_beta_no_legal_moves cCtx 1 0 (-300) 300 cSt (by decide)
      (by intro mv hmv; simp [cCtx] at hmv)⟩
